import Mathlib

/- Formal model of the monthly cost allocator / windowing engine embedded in
   src/frontend/src/components/Dashboard.jsx of konradmakosa/rachunki.

   Modelling conventions:
   * Costs (JavaScript numbers) are modelled as rational numbers; the
     specification states its conservation properties in exact arithmetic
     ("pre-rounding", "integer-safe"), which the rational model captures.
   * Month keys are genuine Lean strings built exactly as the source builds
     them; string comparison is code-point lexicographic, which is what
     JavaScript relational operators and localeCompare perform on these
     zero-padded ASCII keys.
   * Input dates (period_start / period_end) are modelled at the boundary as
     their parsed (year, month) components: the source immediately destructures
     every date string via split('-').map(Number) and never uses the day
     component in the allocator.  Month-key strings inside the pipeline are
     parsed faithfully (String.split on the dash, Nat parsing).
   * The while-loops of the source (month enumeration, month normalisation in
     addMonths) are modelled as fuelled structural recursion with a fuel bound
     that provably dominates the loop measure, keeping everything kernel
     computable. -/

namespace Rachunki

/-- Code-point lexicographic comparison of character lists: the comparison
JavaScript performs (via relational operators / localeCompare) on the
zero-padded ASCII month keys used by the dashboard. -/
def charsLt : List Char → List Char → Bool
  | [], [] => false
  | [], _ :: _ => true
  | _ :: _, [] => false
  | a :: as, b :: bs => if a < b then true else if b < a then false else charsLt as bs

/-- JavaScript string strict comparison on month keys. -/
def strLt (a b : String) : Bool := charsLt a.data b.data

/-- JavaScript string less-or-equal on month keys. -/
def strLe (a b : String) : Bool := !(strLt b a)

lemma charsLt_irrefl : ∀ l : List Char, charsLt l l = false := by
  intro l
  induction l with
  | nil => rfl
  | cons a as ih => simp [charsLt, ih]

lemma charsLt_asymm : ∀ {l₁ l₂ : List Char}, charsLt l₁ l₂ = true → charsLt l₂ l₁ = false := by
  intro l₁
  induction l₁ with
  | nil => intro l₂ h; cases l₂ <;> simp_all [charsLt]
  | cons a as ih =>
    intro l₂ h
    cases l₂ with
    | nil => simp [charsLt] at h
    | cons b bs =>
      simp only [charsLt] at h ⊢
      rcases lt_trichotomy a b with hab | hab | hab
      · simp [hab, not_lt_of_lt hab]
      · subst hab; simp only [lt_irrefl, if_false] at h ⊢; exact ih h
      · simp [hab, not_lt_of_lt hab] at h

lemma charsLt_trans : ∀ {l₁ l₂ l₃ : List Char},
    charsLt l₁ l₂ = true → charsLt l₂ l₃ = true → charsLt l₁ l₃ = true := by
  intro l₁
  induction l₁ with
  | nil =>
    intro l₂ l₃ h₁ h₂
    cases l₂ with
    | nil => exact h₂
    | cons b bs => cases l₃ with
      | nil => simp [charsLt] at h₂
      | cons c cs => simp [charsLt]
  | cons a as ih =>
    intro l₂ l₃ h₁ h₂
    cases l₂ with
    | nil => simp [charsLt] at h₁
    | cons b bs =>
      cases l₃ with
      | nil => simp [charsLt] at h₂
      | cons c cs =>
        simp only [charsLt] at h₁ h₂ ⊢
        rcases lt_trichotomy a b with hab | hab | hab
        · rcases lt_trichotomy b c with hbc | hbc | hbc
          · simp [lt_trans hab hbc]
          · subst hbc; simp [hab]
          · simp [hbc, not_lt_of_lt hbc] at h₂
        · subst hab
          rcases lt_trichotomy a c with hac | hac | hac
          · simp [hac]
          · subst hac
            simp only [lt_irrefl, if_false] at h₁ h₂ ⊢
            exact ih h₁ h₂
          · simp [hac, not_lt_of_lt hac] at h₂
        · simp [hab, not_lt_of_lt hab] at h₁

lemma charsLt_total : ∀ l₁ l₂ : List Char,
    charsLt l₁ l₂ = true ∨ l₁ = l₂ ∨ charsLt l₂ l₁ = true := by
  intro l₁
  induction l₁ with
  | nil => intro l₂; cases l₂ <;> simp [charsLt]
  | cons a as ih =>
    intro l₂
    cases l₂ with
    | nil => simp [charsLt]
    | cons b bs =>
      rcases lt_trichotomy a b with hab | hab | hab
      · left; simp [charsLt, hab]
      · subst hab
        rcases ih bs with h | h | h
        · left; simp [charsLt, h]
        · right; left; rw [h]
        · right; right; simp [charsLt, h]
      · right; right; simp [charsLt, hab]

lemma strLt_irrefl (a : String) : strLt a a = false := charsLt_irrefl a.data

lemma strLt_asymm {a b : String} (h : strLt a b = true) : strLt b a = false :=
  charsLt_asymm h

lemma strLt_trans {a b c : String} (h₁ : strLt a b = true) (h₂ : strLt b c = true) :
    strLt a c = true := charsLt_trans h₁ h₂

lemma strLt_total (a b : String) : strLt a b = true ∨ a = b ∨ strLt b a = true := by
  rcases charsLt_total a.data b.data with h | h | h
  · exact Or.inl h
  · refine Or.inr (Or.inl ?_)
    cases a; cases b
    exact congrArg String.mk (by simpa using h)
  · exact Or.inr (Or.inr h)

lemma strLe_iff {a b : String} : strLe a b = true ↔ strLt a b = true ∨ a = b := by
  constructor
  · intro h
    rcases strLt_total a b with h' | h' | h'
    · exact Or.inl h'
    · exact Or.inr h'
    · simp [strLe, h'] at h
  · intro h
    rcases h with h | h
    · have : strLt b a = false := strLt_asymm h
      simp [strLe, this]
    · subst h; simp [strLe, strLt_irrefl]

lemma strLe_refl (a : String) : strLe a a = true := by
  simp [strLe, strLt_irrefl]

lemma strLe_antisymm {a b : String} (h₁ : strLe a b = true) (h₂ : strLe b a = true) : a = b := by
  rcases strLe_iff.mp h₁ with h | h
  · rcases strLe_iff.mp h₂ with h' | h'
    · rw [strLt_asymm h] at h'; cases h'
    · exact h'.symm
  · exact h

lemma strLe_trans {a b c : String} (h₁ : strLe a b = true) (h₂ : strLe b c = true) :
    strLe a c = true := by
  rcases strLe_iff.mp h₁ with h | h
  · rcases strLe_iff.mp h₂ with h' | h'
    · exact strLe_iff.mpr (Or.inl (strLt_trans h h'))
    · subst h'; exact strLe_iff.mpr (Or.inl h)
  · subst h; exact h₂

lemma strLe_total (a b : String) : strLe a b = true ∨ strLe b a = true := by
  rcases strLt_total a b with h | h | h
  · exact Or.inl (strLe_iff.mpr (Or.inl h))
  · exact Or.inl (strLe_iff.mpr (Or.inr h))
  · exact Or.inr (strLe_iff.mpr (Or.inl h))

/-- Model of `Math.round(x * 100) / 100`: currency-style half-up rounding to two decimal
places.  JavaScript's `Math.round x` equals `⌊x + 1/2⌋`. -/
def round2 (q : ℚ) : ℚ := (⌊q * 100 + 1/2⌋ : ℚ) / 100

/-- A rational that is a whole number of cents (a multiple of 0.01). -/
def IsCent (q : ℚ) : Prop := ∃ k : ℤ, q = (k : ℚ) / 100

lemma isCent_round2 (q : ℚ) : IsCent (round2 q) := ⟨_, rfl⟩

lemma isCent_zero : IsCent 0 := ⟨0, by norm_num⟩

lemma isCent_add {a b : ℚ} (ha : IsCent a) (hb : IsCent b) : IsCent (a + b) := by
  obtain ⟨k, rfl⟩ := ha
  obtain ⟨l, rfl⟩ := hb
  exact ⟨k + l, by push_cast; ring⟩

lemma round2_eq_self {q : ℚ} (h : IsCent q) : round2 q = q := by
  obtain ⟨k, rfl⟩ := h
  unfold round2
  have h100 : ((k : ℚ) / 100) * 100 = (k : ℚ) := by field_simp
  rw [h100]
  have : ⌊(k : ℚ) + 1/2⌋ = k := by
    rw [add_comm, Int.floor_add_int]
    norm_num
  rw [this]

/-! ### Decimal rendering of naturals (JavaScript string interpolation)

`Nat.repr` is the model of JavaScript's number-to-string conversion for
nonnegative integers.  The lemmas below characterise it digit by digit for
four-digit values, which is all the well-formed `YYYY` years need. -/

lemma toDigitsCore_acc (f : Nat) : ∀ (n : Nat) (ds : List Char),
    Nat.toDigitsCore 10 f n ds = Nat.toDigitsCore 10 f n [] ++ ds := by
  induction f with
  | zero => intro n ds; simp [Nat.toDigitsCore]
  | succ f ih =>
    intro n ds
    simp only [Nat.toDigitsCore]
    by_cases h : n / 10 = 0
    · simp [h]
    · rw [if_neg h, if_neg h, ih (n / 10) (Nat.digitChar (n % 10) :: ds),
        ih (n / 10) [Nat.digitChar (n % 10)]]
      simp

lemma toDigitsCore_fuel : ∀ (n f f' : Nat), n < f → n < f' →
    Nat.toDigitsCore 10 f n [] = Nat.toDigitsCore 10 f' n [] := by
  intro n
  induction n using Nat.strong_induction_on with
  | _ n ih =>
    intro f f' hf hf'
    rcases Nat.exists_eq_succ_of_ne_zero (show f ≠ 0 by omega) with ⟨g, rfl⟩
    rcases Nat.exists_eq_succ_of_ne_zero (show f' ≠ 0 by omega) with ⟨g', rfl⟩
    simp only [Nat.toDigitsCore]
    by_cases h : n / 10 = 0
    · simp [h]
    · rw [if_neg h, if_neg h,
        toDigitsCore_acc g (n / 10) [Nat.digitChar (n % 10)],
        toDigitsCore_acc g' (n / 10) [Nat.digitChar (n % 10)]]
      have hlt : n / 10 < n := Nat.div_lt_self (by omega) (by omega)
      rw [ih (n / 10) hlt g g' (by omega) (by omega)]

lemma toDigits_step (n : Nat) (h : 10 ≤ n) :
    Nat.toDigits 10 n = Nat.toDigits 10 (n / 10) ++ [Nat.digitChar (n % 10)] := by
  show Nat.toDigitsCore 10 (n + 1) n [] = Nat.toDigitsCore 10 (n / 10 + 1) (n / 10) [] ++ _
  rw [show n + 1 = n + 1 from rfl]
  simp only [Nat.toDigitsCore]
  have h10 : ¬ n / 10 = 0 := by omega
  rw [if_neg h10, toDigitsCore_acc n (n / 10) [Nat.digitChar (n % 10)]]
  congr 1
  exact toDigitsCore_fuel (n / 10) n (n / 10 + 1) (by omega) (by omega)

lemma toDigits_single (n : Nat) (h : n < 10) : Nat.toDigits 10 n = [Nat.digitChar n] := by
  show Nat.toDigitsCore 10 (n + 1) n [] = _
  simp only [Nat.toDigitsCore]
  rw [if_pos (by omega), Nat.mod_eq_of_lt h]

lemma repr_data (n : Nat) : (Nat.repr n).data = Nat.toDigits 10 n := rfl

/-- Decimal rendering of a four-digit number, digit by digit. -/
lemma repr_four (y : Nat) (h1 : 1000 ≤ y) (h2 : y ≤ 9999) :
    (Nat.repr y).data = [Nat.digitChar (y / 1000), Nat.digitChar (y / 100 % 10),
      Nat.digitChar (y / 10 % 10), Nat.digitChar (y % 10)] := by
  have e1 : y / 10 / 10 = y / 100 := by omega
  have e2 : y / 100 / 10 = y / 1000 := by omega
  rw [repr_data, toDigits_step y (by omega), toDigits_step (y / 10) (by omega),
    toDigits_step (y / 10 / 10) (by rw [e1]; omega), e1, e2,
    toDigits_single (y / 1000) (by omega)]
  simp

lemma digitChar_lt : ∀ a < 10, ∀ b < 10,
    ((Nat.digitChar a < Nat.digitChar b) ↔ a < b) := by decide

lemma digitChar_inj : ∀ a < 10, ∀ b < 10,
    ((Nat.digitChar a = Nat.digitChar b) ↔ a = b) := by decide

lemma digitChar_ne_dash : ∀ a < 10, Nat.digitChar a ≠ '-' := by decide

lemma digitChar_isDigit : ∀ a < 10, (Nat.digitChar a).isDigit = true := by decide

lemma digitChar_toNat : ∀ a < 10, (Nat.digitChar a).toNat - '0'.toNat = a := by decide

/-! ### Month keys -/

/-- Model of `String(m).padStart(2, '0')`: the zero-padded month component. -/
def pad2 (n : Nat) : String := ⟨List.replicate (2 - (Nat.repr n).length) '0' ++ (Nat.repr n).data⟩

/-- The month key written by the allocator loop: `${y}-${String(m).padStart(2,'0')}`. -/
def ymKey (y m : Nat) : String := Nat.repr y ++ "-" ++ pad2 m

lemma str_data_append (a b : String) : (a ++ b).data = a.data ++ b.data := by
  cases a; cases b; rfl

lemma repr_length (n : Nat) : (Nat.repr n).length = (Nat.repr n).data.length := rfl

lemma repr_single (n : Nat) (h : n < 10) : (Nat.repr n).data = [Nat.digitChar n] := by
  rw [repr_data, toDigits_single n h]

lemma repr_two (n : Nat) (h1 : 10 ≤ n) (h2 : n ≤ 99) :
    (Nat.repr n).data = [Nat.digitChar (n / 10), Nat.digitChar (n % 10)] := by
  rw [repr_data, toDigits_step n h1, toDigits_single (n / 10) (by omega)]
  simp

lemma pad2_data (m : Nat) (h : m ≤ 99) :
    (pad2 m).data = [Nat.digitChar (m / 10), Nat.digitChar (m % 10)] := by
  by_cases h10 : m < 10
  · have hd : (Nat.repr m).data = [Nat.digitChar m] := repr_single m h10
    have hl : (Nat.repr m).length = 1 := by rw [repr_length, hd]; rfl
    have h0 : m / 10 = 0 := by omega
    have hm : m % 10 = m := by omega
    simp [pad2, hl, hd, h0, hm, List.replicate]
    rfl
  · have hd : (Nat.repr m).data = [Nat.digitChar (m / 10), Nat.digitChar (m % 10)] :=
      repr_two m (by omega) h
    have hl : (Nat.repr m).length = 2 := by rw [repr_length, hd]; rfl
    simp [pad2, hl, hd]

lemma ymKey_data (y m : Nat) (hy1 : 1000 ≤ y) (hy2 : y ≤ 9999) (hm : m ≤ 99) :
    (ymKey y m).data = [Nat.digitChar (y / 1000), Nat.digitChar (y / 100 % 10),
      Nat.digitChar (y / 10 % 10), Nat.digitChar (y % 10)] ++
      '-' :: [Nat.digitChar (m / 10), Nat.digitChar (m % 10)] := by
  show ((Nat.repr y ++ "-") ++ pad2 m).data = _
  rw [str_data_append, str_data_append, repr_four y hy1 hy2, pad2_data m hm]
  rfl

/-- Lexicographic comparison decomposes over equal-length prefixes. -/
lemma charsLt_append : ∀ (l₁ l₂ r₁ r₂ : List Char), l₁.length = l₂.length →
    (charsLt (l₁ ++ r₁) (l₂ ++ r₂) = true ↔
      (charsLt l₁ l₂ = true ∨ (l₁ = l₂ ∧ charsLt r₁ r₂ = true))) := by
  intro l₁
  induction l₁ with
  | nil =>
    intro l₂ r₁ r₂ hlen
    cases l₂ with
    | nil => simp [charsLt]
    | cons b bs => simp at hlen
  | cons a as ih =>
    intro l₂ r₁ r₂ hlen
    cases l₂ with
    | nil => simp at hlen
    | cons b bs =>
      show charsLt (a :: (as ++ r₁)) (b :: (bs ++ r₂)) = true ↔ _
      simp only [charsLt]
      rcases lt_trichotomy a b with hab | hab | hab
      · simp [hab]
      · subst hab
        simp only [lt_irrefl, if_false]
        rw [ih bs r₁ r₂ (by simpa using hlen)]
        simp
      · have hnab : ¬ a < b := not_lt_of_lt hab
        rw [if_neg hnab, if_pos hab, if_neg hnab, if_pos hab]
        constructor
        · intro h; cases h
        · rintro (h | ⟨heq, h'⟩)
          · cases h
          · cases heq; exact absurd hab (lt_irrefl a)

/-- The same shape as `charsLt`, on natural-number digit lists. -/
def natsLt : List Nat → List Nat → Bool
  | [], [] => false
  | [], _ :: _ => true
  | _ :: _, [] => false
  | a :: as, b :: bs => if a < b then true else if b < a then false else natsLt as bs

lemma charsLt_map_digitChar : ∀ (ds es : List Nat), (∀ d ∈ ds, d < 10) → (∀ e ∈ es, e < 10) →
    charsLt (ds.map Nat.digitChar) (es.map Nat.digitChar) = natsLt ds es := by
  intro ds
  induction ds with
  | nil => intro es _ _; cases es <;> rfl
  | cons d ds ih =>
    intro es hd he
    cases es with
    | nil => rfl
    | cons e es =>
      have hd0 : d < 10 := hd d (by simp)
      have he0 : e < 10 := he e (by simp)
      simp only [List.map_cons, charsLt, natsLt]
      rw [if_congr (digitChar_lt d hd0 e he0) rfl rfl,
        if_congr (digitChar_lt e he0 d hd0) rfl rfl,
        ih es (fun x hx => hd x (by simp [hx])) (fun x hx => he x (by simp [hx]))]

lemma natsLt_four (a₁ b₁ c₁ d₁ a₂ b₂ c₂ d₂ : Nat) :
    natsLt [a₁, b₁, c₁, d₁] [a₂, b₂, c₂, d₂] = true ↔
      (a₁ < a₂ ∨ (a₁ = a₂ ∧ (b₁ < b₂ ∨ (b₁ = b₂ ∧ (c₁ < c₂ ∨ (c₁ = c₂ ∧ d₁ < d₂)))))) := by
  simp only [natsLt]
  split_ifs <;> simp <;> omega

lemma natsLt_two (a₁ b₁ a₂ b₂ : Nat) :
    natsLt [a₁, b₁] [a₂, b₂] = true ↔ (a₁ < a₂ ∨ (a₁ = a₂ ∧ b₁ < b₂)) := by
  simp only [natsLt]
  split_ifs <;> simp <;> omega

lemma map_digitChar_inj : ∀ (ds es : List Nat), (∀ d ∈ ds, d < 10) → (∀ e ∈ es, e < 10) →
    (ds.map Nat.digitChar = es.map Nat.digitChar ↔ ds = es) := by
  intro ds
  induction ds with
  | nil => intro es _ _; cases es <;> simp
  | cons d ds ih =>
    intro es hd he
    cases es with
    | nil => simp
    | cons e es =>
      simp only [List.map_cons, List.cons.injEq]
      rw [digitChar_inj d (hd d (by simp)) e (he e (by simp)),
        ih es (fun x hx => hd x (by simp [hx])) (fun x hx => he x (by simp [hx]))]

/-- Key fact behind "string comparison is date ordering": on well-formed
zero-padded keys (four-digit year), the code-point order of month keys is the
chronological order of `(year, month)`. -/
lemma strLt_ymKey (y₁ m₁ y₂ m₂ : Nat)
    (hy₁ : 1000 ≤ y₁) (hy₁' : y₁ ≤ 9999) (hy₂ : 1000 ≤ y₂) (hy₂' : y₂ ≤ 9999)
    (hm₁ : m₁ ≤ 99) (hm₂ : m₂ ≤ 99) :
    (strLt (ymKey y₁ m₁) (ymKey y₂ m₂) = true) ↔
      (y₁ < y₂ ∨ (y₁ = y₂ ∧ m₁ < m₂)) := by
  unfold strLt
  rw [ymKey_data y₁ m₁ hy₁ hy₁' hm₁, ymKey_data y₂ m₂ hy₂ hy₂' hm₂]
  have hy₁d : ∀ d ∈ [y₁ / 1000, y₁ / 100 % 10, y₁ / 10 % 10, y₁ % 10], d < 10 := by
    intro d hd; simp at hd; omega
  have hy₂d : ∀ d ∈ [y₂ / 1000, y₂ / 100 % 10, y₂ / 10 % 10, y₂ % 10], d < 10 := by
    intro d hd; simp at hd; omega
  have hm₁d : ∀ d ∈ [m₁ / 10, m₁ % 10], d < 10 := by
    intro d hd; simp at hd; omega
  have hm₂d : ∀ d ∈ [m₂ / 10, m₂ % 10], d < 10 := by
    intro d hd; simp at hd; omega
  rw [show ([Nat.digitChar (y₁ / 1000), Nat.digitChar (y₁ / 100 % 10),
      Nat.digitChar (y₁ / 10 % 10), Nat.digitChar (y₁ % 10)] : List Char) =
      ([y₁ / 1000, y₁ / 100 % 10, y₁ / 10 % 10, y₁ % 10].map Nat.digitChar) from rfl,
    show ([Nat.digitChar (y₂ / 1000), Nat.digitChar (y₂ / 100 % 10),
      Nat.digitChar (y₂ / 10 % 10), Nat.digitChar (y₂ % 10)] : List Char) =
      ([y₂ / 1000, y₂ / 100 % 10, y₂ / 10 % 10, y₂ % 10].map Nat.digitChar) from rfl]
  rw [charsLt_append _ _ _ _ (by simp)]
  rw [charsLt_map_digitChar _ _ hy₁d hy₂d, map_digitChar_inj _ _ hy₁d hy₂d]
  have htail : charsLt ('-' :: [Nat.digitChar (m₁ / 10), Nat.digitChar (m₁ % 10)])
      ('-' :: [Nat.digitChar (m₂ / 10), Nat.digitChar (m₂ % 10)]) =
      natsLt [m₁ / 10, m₁ % 10] [m₂ / 10, m₂ % 10] := by
    simp only [charsLt, lt_irrefl, if_false]
    exact charsLt_map_digitChar _ _ hm₁d hm₂d
  rw [htail, natsLt_four, natsLt_two]
  simp only [List.cons.injEq, eq_self_iff_true, and_true]
  omega

/-- Well-formed month keys are injective. -/
lemma ymKey_inj (y₁ m₁ y₂ m₂ : Nat)
    (hy₁ : 1000 ≤ y₁) (hy₁' : y₁ ≤ 9999) (hy₂ : 1000 ≤ y₂) (hy₂' : y₂ ≤ 9999)
    (hm₁ : m₁ ≤ 99) (hm₂ : m₂ ≤ 99) :
    ymKey y₁ m₁ = ymKey y₂ m₂ ↔ (y₁ = y₂ ∧ m₁ = m₂) := by
  constructor
  · intro h
    have h₁ : ¬ (strLt (ymKey y₁ m₁) (ymKey y₂ m₂) = true) := by
      rw [h]; simp [strLt_irrefl]
    have h₂ : ¬ (strLt (ymKey y₂ m₂) (ymKey y₁ m₁) = true) := by
      rw [h]; simp [strLt_irrefl]
    rw [strLt_ymKey y₁ m₁ y₂ m₂ hy₁ hy₁' hy₂ hy₂' hm₁ hm₂] at h₁
    rw [strLt_ymKey y₂ m₂ y₁ m₁ hy₂ hy₂' hy₁ hy₁' hm₂ hm₁] at h₂
    omega
  · rintro ⟨rfl, rfl⟩; rfl

/-! ### JavaScript-style parsing of month keys -/

/-- Model of JavaScript's `s.split('-')` (single-character separator),
expressed on the character list (`String.split` equals exactly this by
`Batteries`' `String.split_of_valid`). -/
def jsSplitDash (s : String) : List String :=
  (List.splitOnP (· == '-') s.data).map String.mk

/-- Model of JavaScript's `Number(t)` / `parseInt(t)` on the all-digit
components of well-formed date strings: `String.toNat?` expressed on the
character list.  (On malformed components JavaScript produces `NaN`; the
specification excludes those upstream, and the model defaults to 0 there.) -/
def jsNat (t : String) : Nat :=
  if t.data.isEmpty then 0
  else if t.data.all (·.isDigit) then
    t.data.foldl (fun n c => n * 10 + (c.toNat - '0'.toNat)) 0
  else 0

lemma str_mk_data (s : String) : String.mk s.data = s := by cases s; rfl

lemma ymKey_data_raw (y m : Nat) :
    (ymKey y m).data = (Nat.repr y).data ++ '-' :: (pad2 m).data := by
  show ((Nat.repr y ++ "-") ++ pad2 m).data = _
  rw [str_data_append, str_data_append, List.append_assoc]
  rfl

lemma dash_not_mem_repr (y : Nat) (hy1 : 1000 ≤ y) (hy2 : y ≤ 9999) :
    '-' ∉ (Nat.repr y).data := by
  rw [repr_four y hy1 hy2]
  intro h
  simp only [List.mem_cons, List.not_mem_nil, or_false] at h
  rcases h with h | h | h | h <;>
    exact absurd h.symm (digitChar_ne_dash _ (by omega))

lemma dash_not_mem_pad2 (m : Nat) (hm : m ≤ 99) : '-' ∉ (pad2 m).data := by
  rw [pad2_data m hm]
  intro h
  simp only [List.mem_cons, List.not_mem_nil, or_false] at h
  rcases h with h | h <;>
    exact absurd h.symm (digitChar_ne_dash _ (by omega))

/-- Splitting a well-formed month key on the dash recovers its components. -/
lemma jsSplitDash_ymKey (y m : Nat) (hy1 : 1000 ≤ y) (hy2 : y ≤ 9999) (hm : m ≤ 99) :
    jsSplitDash (ymKey y m) = [Nat.repr y, pad2 m] := by
  unfold jsSplitDash
  have h₁ : ∀ c ∈ (Nat.repr y).data, ¬ (c == '-') = true := by
    intro c hc hcd
    exact dash_not_mem_repr y hy1 hy2 ((by simpa using hcd : c = '-') ▸ hc)
  have h₂ : ∀ c ∈ (pad2 m).data, ¬ (c == '-') = true := by
    intro c hc hcd
    exact dash_not_mem_pad2 m hm ((by simpa using hcd : c = '-') ▸ hc)
  have hsplit : List.splitOnP (· == '-') (ymKey y m).data = [(Nat.repr y).data, (pad2 m).data] := by
    rw [ymKey_data_raw, List.splitOnP_first _ _ h₁ '-' (by simp) ((pad2 m).data),
      List.splitOnP_eq_single _ _ h₂]
  rw [hsplit]
  simp [str_mk_data]

/-- Evaluating `jsNat` on a string of decimal digits folds the digits. -/
lemma jsNat_digits (s : String) (ds : List Nat) (hs : s.data = ds.map Nat.digitChar)
    (hds : ∀ d ∈ ds, d < 10) (hne : ds ≠ []) :
    jsNat s = ds.foldl (fun n d => n * 10 + d) 0 := by
  have hempty : s.data.isEmpty = false := by
    rw [hs]
    cases ds with
    | nil => exact absurd rfl hne
    | cons d ds => rfl
  have hall : s.data.all (·.isDigit) = true := by
    rw [hs, List.all_eq_true]
    rintro c hc
    rw [List.mem_map] at hc
    obtain ⟨d, hd, rfl⟩ := hc
    exact digitChar_isDigit d (hds d hd)
  unfold jsNat
  rw [hempty, if_neg (by simp), if_pos hall, hs, List.foldl_map]
  refine List.foldl_ext _ _ _ ?_
  intro a d hd
  rw [digitChar_toNat d (hds d hd)]

lemma jsNat_repr (y : Nat) (hy1 : 1000 ≤ y) (hy2 : y ≤ 9999) : jsNat (Nat.repr y) = y := by
  rw [jsNat_digits (Nat.repr y) [y / 1000, y / 100 % 10, y / 10 % 10, y % 10]
    (by rw [repr_four y hy1 hy2]; rfl)
    (by intro d hd; simp at hd; omega)
    (by simp)]
  simp only [List.foldl]
  omega

lemma jsNat_pad2 (m : Nat) (hm : m ≤ 99) : jsNat (pad2 m) = m := by
  rw [jsNat_digits (pad2 m) [m / 10, m % 10]
    (by rw [pad2_data m hm]; rfl)
    (by intro d hd; simp at hd; omega)
    (by simp)]
  simp only [List.foldl]
  omega

/-! ### Data model

Input records as the allocator reads them.  A date is modelled at the
boundary as its parsed `(year, month)` pair: the source destructures every
date string via `split('-').map(Number)` and never reads the day component
inside the allocator. -/

structure DateYM where
  year : Nat
  month : Nat
deriving DecidableEq

/-- The fields of one billing record that the allocator reads.
`cost_gross = none` models an absent field. -/
structure BillingRecord where
  period_start : Option DateYM
  period_end : Option DateYM
  cost_gross : Option ℚ
  is_estimate : Bool
deriving DecidableEq

/-- One provider series as delivered by the chart-data endpoint. -/
structure Series where
  provider : String
  data : List BillingRecord
deriving DecidableEq

/-- Model of `toYearMonth(dateStr)`: the `y`-dash-`m` key from the date components (for a
well-formed zero-padded date string the raw month substring is the
zero-padded month). -/
def toYearMonth (d : DateYM) : String := Nat.repr d.year ++ "-" ++ pad2 d.month

/-- The while-loop of `getMonthsBetween`, as fuelled recursion: push the key,
increment the month, roll the year after month 12. -/
def monthsLoop (ey em : Nat) : Nat → Nat → Nat → List String
  | 0, _, _ => []
  | fuel + 1, y, m =>
    if y < ey ∨ (y = ey ∧ m ≤ em) then
      ymKey y m :: (if m + 1 > 12 then monthsLoop ey em fuel (y + 1) 1
                    else monthsLoop ey em fuel y (m + 1))
    else []

/-- Model of `getMonthsBetween(startDate, endDate)`: the inclusive list of `YYYY-MM`
keys from the start month to the end month, with the defensive fallback to
the single start month.  The fuel passed to the loop provably dominates the
loop measure. -/
def getMonthsBetween (s e : DateYM) : List String :=
  let months := monthsLoop e.year e.month ((e.year + 1 - s.year) * 14 + 14) s.year s.month
  if months.length > 0 then months else [toYearMonth s]

/-- Model of `const cost = d.cost_gross || 0`. -/
def jsCost (d : BillingRecord) : ℚ := d.cost_gross.getD 0

/-- The allocator's filter: `if (d.is_estimate) continue; if (!cost || !d.period_start) continue`.
Note that a strictly negative cost is truthy in JavaScript and is not skipped. -/
def survives (d : BillingRecord) : Bool :=
  !d.is_estimate && decide (jsCost d ≠ 0) && d.period_start.isSome

/-- The month list of a record: `getMonthsBetween(d.period_start, d.period_end || d.period_start)`
(the `none` branch is unreachable behind `survives`). -/
def recordMonths (d : BillingRecord) : List String :=
  match d.period_start with
  | none => []
  | some s => getMonthsBetween s (d.period_end.getD s)

/-- Model of `const perMonth = cost / months.length`. -/
def perMonth (d : BillingRecord) : ℚ := jsCost d / ((recordMonths d).length : ℚ)

/-- The dynamic per-month object `{ month, [provider]: total, … }`:
provider-keyed accumulated values in insertion order. -/
structure PMonth where
  month : String
  vals : List (String × ℚ)
deriving DecidableEq

/-- Reading `obj[provider] || 0` from a dynamic object. -/
def getVal (vals : List (String × ℚ)) (p : String) : ℚ :=
  match vals.find? (fun v => v.1 == p) with
  | some v => v.2
  | none => 0

/-- Writing `obj[provider] = q` on a dynamic object. -/
def setVal (vals : List (String × ℚ)) (p : String) (q : ℚ) : List (String × ℚ) :=
  if vals.any (fun v => v.1 == p) then
    vals.map (fun v => if v.1 == p then (v.1, q) else v)
  else vals ++ [(p, q)]

/-- Model of `providerMonths[ym][provider] = (providerMonths[ym][provider] || 0) + v`,
creating `providerMonths[ym] = { month: ym }` first when absent. -/
def addContribution (acc : List PMonth) (ym provider : String) (v : ℚ) : List PMonth :=
  if acc.any (fun pm => pm.month == ym) then
    acc.map (fun pm => if pm.month == ym then
      { pm with vals := setVal pm.vals provider (getVal pm.vals provider + v) } else pm)
  else acc ++ [⟨ym, [(provider, v)]⟩]

/-- Processing one record of a series inside the `allMonthly` double loop. -/
def applyRecord (provider : String) (acc : List PMonth) (d : BillingRecord) : List PMonth :=
  if survives d then
    (recordMonths d).foldl (fun a ym => addContribution a ym provider (perMonth d)) acc
  else acc

/-- The fully accumulated `providerMonths` object (insertion order). -/
def buildPM (series : List Series) : List PMonth :=
  series.foldl (fun acc s => s.data.foldl (applyRecord s.provider) acc) []

/-- One row of the monthly timeline. -/
structure MonthRow where
  month : String
  eon : ℚ
  pgnig : ℚ
  mpwik : ℚ
deriving DecidableEq

/-- Model of `allMonthly` — `buildMonthlyTimeline` of the specification: accumulate
per (month, provider), sort the rows ascending by month key (the JavaScript
sort by `localeCompare`; keys are distinct so the order is fully determined),
and project to the three known providers with two-decimal rounding. -/
def allMonthly (series : List Series) : List MonthRow :=
  (List.insertionSort (fun a b => strLe a.month b.month = true) (buildPM series)).map
    (fun pm => ⟨pm.month, round2 (getVal pm.vals "eon"), round2 (getVal pm.vals "pgnig"),
      round2 (getVal pm.vals "mpwik")⟩)

/-- Model of `toQuarter(ym)`: the quarter key `y`-`Q`-`ceil(parseInt(m) / 3)` with the year kept
as the raw substring. -/
def toQuarter (ym : String) : String :=
  let parts := jsSplitDash ym
  let y := parts.getD 0 ""
  let m := parts.getD 1 ""
  y ++ "-Q" ++ Nat.repr ((jsNat m + 2) / 3)

/-- One quarter-aggregated row. -/
structure QuarterRow where
  period : String
  eon : ℚ
  pgnig : ℚ
  mpwik : ℚ
deriving DecidableEq

/-- One step of the quarter accumulation: create `{ period: qKey }` when
absent, then add each provider field (`(quarters[qKey][key] || 0) + (row[key] || 0)`). -/
def addQuarter (acc : List QuarterRow) (row : MonthRow) : List QuarterRow :=
  let qk := toQuarter row.month
  if acc.any (fun q => q.period == qk) then
    acc.map (fun q => if q.period == qk then
      ⟨q.period, q.eon + row.eon, q.pgnig + row.pgnig, q.mpwik + row.mpwik⟩ else q)
  else acc ++ [⟨qk, row.eon, row.pgnig, row.mpwik⟩]

/-- Model of `aggregateToQuarters(monthlyData)`. -/
def aggregateToQuarters (monthlyData : List MonthRow) : List QuarterRow :=
  List.insertionSort (fun a b => strLe a.period b.period = true)
    (monthlyData.foldl addQuarter [])

/-- The first while-loop of `addMonths`: `while (m > 12) { m -= 12; y++ }`. -/
def fixHigh : Nat → Int → Int → Int × Int
  | 0, y, m => (y, m)
  | f + 1, y, m => if m > 12 then fixHigh f (y + 1) (m - 12) else (y, m)

/-- The second while-loop of `addMonths`: `while (m < 1) { m += 12; y-- }`. -/
def fixLow : Nat → Int → Int → Int × Int
  | 0, y, m => (y, m)
  | f + 1, y, m => if m < 1 then fixLow f (y - 1) (m + 12) else (y, m)

/-- JavaScript `String(n)` on a (possibly negative) integer. -/
def intStr (n : Int) : String :=
  if n < 0 then "-" ++ Nat.repr n.natAbs else Nat.repr n.toNat

/-- Model of `String(m).padStart(2, '0')` on an integer month. -/
def intPad2 (n : Int) : String :=
  ⟨List.replicate (2 - (intStr n).length) '0' ++ (intStr n).data⟩

/-- Model of `addMonths(ym, n)`: split the key, add `n` months, normalise with the two
while-loops, re-render.  The fuel passed to each loop dominates its measure
(each iteration moves `m` by 12 towards the exit condition). -/
def addMonths (ym : String) (n : Int) : String :=
  let parts := jsSplitDash ym
  let y : Int := (jsNat (parts.getD 0 "") : Int)
  let m : Int := (jsNat (parts.getD 1 "") : Int) + n
  let p1 := fixHigh (m - 12).toNat y m
  let p2 := fixLow (1 - p1.2).toNat p1.1 p1.2
  intStr p2.1 ++ "-" ++ intPad2 p2.2

/-- The window memo's result: `{ windowStart, windowEnd, canGoBack, canGoForward }`. -/
structure WindowState where
  windowStart : Option String
  windowEnd : Option String
  canGoBack : Bool
  canGoForward : Bool
deriving DecidableEq

/-- The visible-window computation over the monthly timeline. -/
def computeWindow (timeline : List MonthRow) (windowMonths : Nat) (offset : Int) :
    WindowState :=
  match timeline with
  | [] => ⟨none, none, false, false⟩
  | r :: rs =>
    let lastMonth := (List.getLast (r :: rs) (List.cons_ne_nil r rs)).month
    let firstMonth := r.month
    if windowMonths = 0 then ⟨some firstMonth, some lastMonth, false, false⟩
    else
      let e := addMonths lastMonth (-offset)
      let s := addMonths e (-((windowMonths : Int) - 1))
      ⟨some s, some e, strLt firstMonth s, decide (0 < offset)⟩

/-- Model of `Math.max(1, Math.floor(windowMonths / 2))`. -/
def stepSize (windowMonths : Nat) : Nat := max 1 (windowMonths / 2)

/-- Model of `goBack`: `setOffset(o => o + stepSize)`. -/
def goBack (windowMonths : Nat) (o : Int) : Int := o + stepSize windowMonths

/-- Model of `goForward`: `setOffset(o => Math.max(0, o - stepSize))`. -/
def goForward (windowMonths : Nat) (o : Int) : Int := max 0 (o - stepSize windowMonths)

/-- One row of the final display projection (with its independently rounded
`total`). -/
structure DisplayRow where
  period : String
  eon : ℚ
  pgnig : ℚ
  mpwik : ℚ
  total : ℚ
deriving DecidableEq

/-- The window filter of the display pipeline: keep the rows whose month key
lies inside `[windowStart, windowEnd]` (string comparison), when a bounded
window is active. -/
def windowFiltered (allM : List MonthRow) (windowMonths : Nat) (offset : Int) :
    List MonthRow :=
  match (computeWindow allM windowMonths offset).windowStart,
        (computeWindow allM windowMonths offset).windowEnd with
  | some ws, some we =>
    if windowMonths > 0 then
      allM.filter (fun row => strLe ws row.month && strLe row.month we)
    else allM
  | _, _ => allM

/-- The display pipeline: filter the timeline to the visible window,
optionally aggregate to quarters, then round every field and attach
`total = round2(eon + pgnig + mpwik)`. -/
def displayData (series : List Series) (windowMonths : Nat) (offset : Int)
    (quarterly : Bool) : List DisplayRow :=
  let allM := allMonthly series
  if allM.isEmpty then []
  else
    let filtered := windowFiltered allM windowMonths offset
    let chartRows := if quarterly then aggregateToQuarters filtered
      else filtered.map (fun row => (⟨row.month, row.eon, row.pgnig, row.mpwik⟩ : QuarterRow))
    chartRows.map (fun r => ⟨r.period, round2 r.eon, round2 r.pgnig, round2 r.mpwik,
      round2 (r.eon + r.pgnig + r.mpwik)⟩)

/-! ### Characterisation of the month-enumeration loop -/

/-- On well-formed inputs the loop produces exactly the inclusive month range,
expressed through the absolute month index `12 * year + (month - 1)`.  The
hypothesis on `fuel` is the loop measure; the wrapper's fuel satisfies it. -/
lemma monthsLoop_spec (ey em : Nat) (hem1 : 1 ≤ em) (hem2 : em ≤ 12) :
    ∀ (fuel y m : Nat), 1 ≤ m → m ≤ 12 → (ey + 1 - y) * 14 + (14 - m) ≤ fuel →
    monthsLoop ey em fuel y m =
      (List.range (12 * ey + (em - 1) + 1 - (12 * y + (m - 1)))).map
        (fun k => ymKey ((12 * y + (m - 1) + k) / 12) ((12 * y + (m - 1) + k) % 12 + 1)) := by
  intro fuel
  induction fuel with
  | zero =>
    intro y m hm1 hm2 hf
    exact absurd hf (by omega)
  | succ fuel ih =>
    intro y m hm1 hm2 hf
    simp only [monthsLoop]
    by_cases hcond : y < ey ∨ (y = ey ∧ m ≤ em)
    · have hle : 12 * y + (m - 1) ≤ 12 * ey + (em - 1) := by omega
      obtain ⟨c, hc⟩ : ∃ c, 12 * ey + (em - 1) + 1 - (12 * y + (m - 1)) = c + 1 :=
        ⟨12 * ey + (em - 1) - (12 * y + (m - 1)), by omega⟩
      rw [if_pos hcond, hc, List.range_succ_eq_map, List.map_cons, List.map_map]
      have hhead : ymKey ((12 * y + (m - 1) + 0) / 12) ((12 * y + (m - 1) + 0) % 12 + 1) =
          ymKey y m := by
        have h1 : (12 * y + (m - 1) + 0) / 12 = y := by omega
        have h2 : (12 * y + (m - 1) + 0) % 12 + 1 = m := by omega
        rw [h1, h2]
      rw [hhead]
      congr 1
      by_cases hwrap : m + 1 > 12
      · rw [if_pos hwrap, ih (y + 1) 1 le_rfl (by omega) (by omega)]
        have hcount : 12 * ey + (em - 1) + 1 - (12 * (y + 1) + (1 - 1)) = c := by omega
        rw [hcount]
        apply List.map_congr_left
        intro k _
        have h1 : 12 * (y + 1) + (1 - 1) + k = 12 * y + (m - 1) + (k + 1) := by omega
        simp only [Function.comp]
        rw [h1]
      · rw [if_neg hwrap, ih y (m + 1) (by omega) (by omega) (by omega)]
        have hcount : 12 * ey + (em - 1) + 1 - (12 * y + (m + 1 - 1)) = c := by omega
        rw [hcount]
        apply List.map_congr_left
        intro k _
        have h1 : 12 * y + (m + 1 - 1) + k = 12 * y + (m - 1) + (k + 1) := by omega
        simp only [Function.comp]
        rw [h1]
    · rw [if_neg hcond]
      have hcount : 12 * ey + (em - 1) + 1 - (12 * y + (m - 1)) = 0 := by omega
      rw [hcount]
      rfl

/-- Behaviour of `getMonthsBetween` on well-formed months: the inclusive month range when
the end month does not precede the start month, the single-start-month
fallback otherwise. -/
lemma getMonthsBetween_spec (s e : DateYM) (hs1 : 1 ≤ s.month) (hs2 : s.month ≤ 12)
    (he1 : 1 ≤ e.month) (he2 : e.month ≤ 12) :
    getMonthsBetween s e =
      if 12 * s.year + s.month ≤ 12 * e.year + e.month then
        (List.range (12 * e.year + (e.month - 1) + 1 - (12 * s.year + (s.month - 1)))).map
          (fun k => ymKey ((12 * s.year + (s.month - 1) + k) / 12)
            ((12 * s.year + (s.month - 1) + k) % 12 + 1))
      else [toYearMonth s] := by
  unfold getMonthsBetween
  rw [monthsLoop_spec e.year e.month he1 he2 _ s.year s.month hs1 hs2 (by omega)]
  by_cases hc : 12 * s.year + s.month ≤ 12 * e.year + e.month
  · rw [if_pos hc, if_pos]
    rw [List.length_map, List.length_range]
    omega
  · rw [if_neg hc, if_neg]
    rw [List.length_map, List.length_range]
    omega

/-- The defensive guarantee: the month list is never empty. -/
lemma getMonthsBetween_ne_nil (s e : DateYM) : getMonthsBetween s e ≠ [] := by
  unfold getMonthsBetween
  by_cases h : (monthsLoop e.year e.month ((e.year + 1 - s.year) * 14 + 14) s.year s.month).length > 0
  · rw [if_pos h]
    intro hnil
    rw [hnil] at h
    exact absurd h (by simp)
  · rw [if_neg h]
    simp

lemma recordMonths_ne_nil (d : BillingRecord) (h : d.period_start.isSome = true) :
    recordMonths d ≠ [] := by
  unfold recordMonths
  match hd : d.period_start with
  | none => rw [hd] at h; cases h
  | some st => exact getMonthsBetween_ne_nil st (d.period_end.getD st)

/-! ### Characterisation of `addMonths` -/

lemma fixHigh_spec : ∀ (f : Nat) (y m : Int), (m - 12).toNat ≤ f →
    12 * (fixHigh f y m).1 + (fixHigh f y m).2 = 12 * y + m ∧ (fixHigh f y m).2 ≤ 12 := by
  intro f
  induction f with
  | zero =>
    intro y m hf
    simp only [fixHigh]
    exact ⟨by simp, show m ≤ 12 by omega⟩
  | succ f ih =>
    intro y m hf
    simp only [fixHigh]
    by_cases hm : m > 12
    · rw [if_pos hm]
      have := ih (y + 1) (m - 12) (by omega)
      omega
    · rw [if_neg hm]
      exact ⟨by simp, show m ≤ 12 by omega⟩

lemma fixLow_spec : ∀ (f : Nat) (y m : Int), (1 - m).toNat ≤ f →
    12 * (fixLow f y m).1 + (fixLow f y m).2 = 12 * y + m ∧ 1 ≤ (fixLow f y m).2 ∧
      (m ≤ 12 → (fixLow f y m).2 ≤ 12) := by
  intro f
  induction f with
  | zero =>
    intro y m hf
    simp only [fixLow]
    exact ⟨by simp, show 1 ≤ m by omega, fun h => show m ≤ 12 from h⟩
  | succ f ih =>
    intro y m hf
    simp only [fixLow]
    by_cases hm : m < 1
    · rw [if_pos hm]
      have := ih (y - 1) (m + 12) (by omega)
      omega
    · rw [if_neg hm]
      exact ⟨by simp, show 1 ≤ m by omega, fun h => show m ≤ 12 from h⟩

lemma intStr_nonneg (n : Int) (h : 0 ≤ n) : intStr n = Nat.repr n.toNat := by
  unfold intStr
  rw [if_neg (by omega)]

lemma intPad2_nonneg (n : Int) (h : 0 ≤ n) : intPad2 n = pad2 n.toNat := by
  unfold intPad2 pad2
  rw [intStr_nonneg n h]

/-- Applying `addMonths` to a well-formed key is exact calendar-month arithmetic on the
absolute month index (with year borrowing), as long as the result stays in
the four-digit-year range. -/
lemma addMonths_ymKey (y m : Nat) (n : Int)
    (hy1 : 1000 ≤ y) (hy2 : y ≤ 9999) (hm1 : 1 ≤ m) (hm2 : m ≤ 12)
    (hlo : 12000 ≤ 12 * (y : Int) + ((m : Int) - 1) + n)
    (hhi : 12 * (y : Int) + ((m : Int) - 1) + n ≤ 12 * 9999 + 11) :
    addMonths (ymKey y m) n =
      ymKey ((12 * (y : Int) + ((m : Int) - 1) + n).toNat / 12)
        ((12 * (y : Int) + ((m : Int) - 1) + n).toNat % 12 + 1) := by
  unfold addMonths
  rw [jsSplitDash_ymKey y m hy1 hy2 (by omega)]
  simp only [List.getD_cons_zero, List.getD_cons_succ]
  rw [jsNat_repr y hy1 hy2, jsNat_pad2 m (by omega)]
  set i : Int := 12 * (y : Int) + ((m : Int) - 1) + n with hi
  set m1 : Int := (m : Int) + n with hm1d
  have hfix1 := fixHigh_spec (m1 - 12).toNat (y : Int) m1 le_rfl
  set p1 := fixHigh (m1 - 12).toNat (y : Int) m1 with hp1
  have hfix2 := fixLow_spec (1 - p1.2).toNat p1.1 p1.2 le_rfl
  set p2 := fixLow (1 - p1.2).toNat p1.1 p1.2 with hp2
  obtain ⟨hsum1, hle1⟩ := hfix1
  obtain ⟨hsum2, hge2, hle2⟩ := hfix2
  have hle2' : p2.2 ≤ 12 := hle2 hle1
  have hsum : 12 * p2.1 + p2.2 = i + 1 := by omega
  have hy' : p2.1 = (i.toNat / 12 : Nat) := by omega
  have hm' : p2.2 = (i.toNat % 12 + 1 : Nat) := by omega
  have hy'nonneg : (0 : Int) ≤ p2.1 := by omega
  have hm'nonneg : (0 : Int) ≤ p2.2 := by omega
  rw [intStr_nonneg p2.1 hy'nonneg, intPad2_nonneg p2.2 hm'nonneg]
  unfold ymKey
  have h1 : p2.1.toNat = i.toNat / 12 := by omega
  have h2 : p2.2.toNat = i.toNat % 12 + 1 := by omega
  rw [h1, h2]

/-! ### Denotation of the accumulation -/

/-- The flat list of elementary contributions `(month key, provider, amount)`
the allocator makes, in processing order. -/
def contribs (series : List Series) : List (String × String × ℚ) :=
  series.flatMap (fun s => s.data.flatMap (fun d =>
    if survives d then (recordMonths d).map (fun ym => (ym, s.provider, perMonth d)) else []))

/-- The pre-rounding accumulated value of one (month, provider) cell over a
flat contribution list. -/
def cellValue (l : List (String × String × ℚ)) (ym p : String) : ℚ :=
  (((l.filter (fun c => c.1 == ym && c.2.1 == p)).map (fun c => c.2.2))).sum

/-- Whether a flat contribution list touches the month `ym`. -/
def touchedIn (l : List (String × String × ℚ)) (ym : String) : Bool :=
  l.any (fun c => c.1 == ym)

/-- The pre-rounding accumulated value of one (month, provider) cell. -/
def monthValue (series : List Series) (ym p : String) : ℚ :=
  cellValue (contribs series) ym p

/-- Whether any surviving record of the input touches the month `ym`. -/
def touched (series : List Series) (ym : String) : Bool :=
  touchedIn (contribs series) ym

/-- One flat accumulation step. -/
def stepC (acc : List PMonth) (c : String × String × ℚ) : List PMonth :=
  addContribution acc c.1 c.2.1 c.2.2

lemma buildPM_eq_foldl (series : List Series) :
    buildPM series = (contribs series).foldl stepC [] := by
  suffices h : ∀ (acc : List PMonth),
      series.foldl (fun acc s => s.data.foldl (applyRecord s.provider) acc) acc =
        (contribs series).foldl stepC acc from h []
  induction series with
  | nil => intro acc; rfl
  | cons s ss ih =>
    intro acc
    have hcontr : contribs (s :: ss) =
        (s.data.flatMap fun d => if survives d = true then
          (recordMonths d).map (fun ym => (ym, s.provider, perMonth d)) else []) ++ contribs ss := by
      simp [contribs]
    rw [List.foldl_cons, ih, hcontr, List.foldl_append]
    congr 1
    clear ih
    induction s.data generalizing acc with
    | nil => rfl
    | cons d ds ihd =>
      rw [List.foldl_cons, List.flatMap_cons, List.foldl_append, ihd]
      congr 1
      unfold applyRecord
      by_cases hs : survives d
      · rw [if_pos hs, if_pos hs, List.foldl_map]
        rfl
      · rw [if_neg hs, if_neg hs]
        rfl

lemma getVal_setVal_same (vals : List (String × ℚ)) (p : String) (q : ℚ) :
    getVal (setVal vals p q) p = q := by
  unfold setVal
  by_cases h : vals.any (fun v => v.1 == p)
  · rw [if_pos h]
    induction vals with
    | nil => cases h
    | cons v vs ih =>
      by_cases hv : v.1 == p
      · simp only [List.map_cons, if_pos hv]
        unfold getVal
        rw [List.find?_cons_of_pos _ (by simpa using hv)]
      · simp only [List.map_cons, if_neg hv]
        have h' : vs.any (fun v => v.1 == p) = true := by
          rcases List.any_eq_true.mp h with ⟨x, hx, hpx⟩
          rcases List.mem_cons.mp hx with rfl | hx'
          · exact absurd hpx (by simpa using hv)
          · exact List.any_eq_true.mpr ⟨x, hx', hpx⟩
        unfold getVal
        rw [List.find?_cons_of_neg _ (by simpa using hv)]
        exact ih h'
  · rw [if_neg h]
    unfold getVal
    rw [List.find?_append]
    have hnone : vals.find? (fun v => v.1 == p) = none := by
      rw [List.find?_eq_none]
      intro x hx
      intro hpx
      exact h (List.any_eq_true.mpr ⟨x, hx, hpx⟩)
    rw [hnone]
    simp [List.find?]

lemma getVal_setVal_ne (vals : List (String × ℚ)) (p : String) (q : ℚ) (p' : String)
    (hne : p' ≠ p) : getVal (setVal vals p q) p' = getVal vals p' := by
  unfold setVal
  by_cases h : vals.any (fun v => v.1 == p)
  · rw [if_pos h]
    clear h
    induction vals with
    | nil => rfl
    | cons v vs ih =>
      by_cases hv : v.1 == p
      · have hvp : v.1 = p := by simpa using hv
        simp only [List.map_cons, if_pos hv]
        unfold getVal
        rw [List.find?_cons_of_neg _ (by simp [hvp]; exact fun hc => hne hc.symm),
          List.find?_cons_of_neg _ (by simp [hvp]; exact fun hc => hne hc.symm)]
        exact ih
      · simp only [List.map_cons, if_neg hv]
        by_cases hv' : v.1 == p'
        · unfold getVal
          rw [List.find?_cons_of_pos _ (by simpa using hv'),
            List.find?_cons_of_pos _ (by simpa using hv')]
        · unfold getVal
          rw [List.find?_cons_of_neg _ (by simpa using hv'),
            List.find?_cons_of_neg _ (by simpa using hv')]
          exact ih
  · rw [if_neg h]
    unfold getVal
    rw [List.find?_append]
    have hlast : List.find? (fun v => v.1 == p') [(p, q)] = none := by
      rw [List.find?_eq_none]
      intro x hx hpx
      rcases List.mem_singleton.mp hx with rfl
      exact hne (Eq.symm (by simpa using hpx))
    rw [hlast]
    cases vals.find? (fun v => v.1 == p') <;> rfl

lemma getVal_single (p₀ : String) (v : ℚ) (p : String) :
    getVal [(p₀, v)] p = if (p₀ == p) = true then v else 0 := by
  unfold getVal
  by_cases h : (p₀ == p)
  · rw [List.find?_cons_of_pos _ (by simpa using h), if_pos h]
  · rw [List.find?_cons_of_neg _ (by simpa using h), if_neg h]
    rfl

lemma addContribution_months (acc : List PMonth) (ym₀ p₀ : String) (v : ℚ) :
    (addContribution acc ym₀ p₀ v).map (fun pm => pm.month) =
      if acc.any (fun pm => pm.month == ym₀) = true then acc.map (fun pm => pm.month)
      else acc.map (fun pm => pm.month) ++ [ym₀] := by
  unfold addContribution
  by_cases h : acc.any (fun pm => pm.month == ym₀)
  · rw [if_pos h, if_pos h, List.map_map]
    apply List.map_congr_left
    intro pm _
    by_cases hm : pm.month = ym₀ <;> simp [hm]
  · rw [if_neg h, if_neg h, List.map_append]
    rfl

lemma addContribution_mem (acc : List PMonth) (ym₀ p₀ : String) (v : ℚ) (pm : PMonth)
    (hpm : pm ∈ addContribution acc ym₀ p₀ v) :
    (pm ∈ acc ∧ (pm.month == ym₀) = false) ∨
    (∃ pm₀ ∈ acc, (pm₀.month == ym₀) = true ∧ pm.month = pm₀.month ∧
      pm.vals = setVal pm₀.vals p₀ (getVal pm₀.vals p₀ + v)) ∨
    (acc.any (fun q => q.month == ym₀) = false ∧ pm = ⟨ym₀, [(p₀, v)]⟩) := by
  unfold addContribution at hpm
  by_cases h : acc.any (fun q => q.month == ym₀)
  · rw [if_pos h] at hpm
    rw [List.mem_map] at hpm
    obtain ⟨pm₀, hpm₀, rfl⟩ := hpm
    by_cases hm : pm₀.month = ym₀
    · right; left
      refine ⟨pm₀, hpm₀, by simpa using hm, ?_, ?_⟩ <;> simp [hm]
    · left
      constructor
      · simpa [hm] using hpm₀
      · simp [hm]
  · rw [if_neg h] at hpm
    rcases List.mem_append.mp hpm with hin | hin
    · left
      refine ⟨hin, ?_⟩
      have hall : ∀ x ∈ acc, ¬ x.month = ym₀ := by simpa using h
      exact beq_eq_false_iff_ne.mpr (hall pm hin)
    · right; right
      exact ⟨by simpa using h, by simpa using hin⟩

lemma cellValue_append_one (l : List (String × String × ℚ)) (c : String × String × ℚ)
    (ym p : String) :
    cellValue (l ++ [c]) ym p =
      cellValue l ym p + (if (c.1 == ym && c.2.1 == p) = true then c.2.2 else 0) := by
  unfold cellValue
  rw [List.filter_append, List.map_append, List.sum_append]
  congr 1
  by_cases h : (c.1 == ym && c.2.1 == p : Bool)
  · rw [if_pos h]
    simp [List.filter, h]
  · rw [if_neg h]
    simp only [Bool.not_eq_true] at h
    simp [List.filter, h]

lemma touchedIn_append_one (l : List (String × String × ℚ)) (c : String × String × ℚ)
    (ym : String) :
    touchedIn (l ++ [c]) ym = (touchedIn l ym || (c.1 == ym)) := by
  unfold touchedIn
  rw [List.any_append]
  simp

lemma cellValue_of_not_touched (l : List (String × String × ℚ)) (ym p : String)
    (h : touchedIn l ym = false) : cellValue l ym p = 0 := by
  unfold cellValue
  have hall : ∀ c ∈ l, ¬ c.1 = ym := by simpa [touchedIn] using h
  have hnil : l.filter (fun c => c.1 == ym && c.2.1 == p) = [] := by
    rw [List.filter_eq_nil_iff]
    intro c hc hcp
    have hpair : (c.1 == ym) = true ∧ (c.2.1 == p) = true := by simpa using hcp
    exact hall c hc (by simpa using hpair.1)
  rw [hnil]
  rfl

/-- Master invariant of the accumulation: the accumulated object has one entry
per touched month (no duplicates), and each entry's provider map is exactly
the per-cell sum of the contributions so far. -/
lemma foldl_stepC_spec (l : List (String × String × ℚ)) :
    ((l.foldl stepC []).map (fun pm => pm.month)).Nodup ∧
    (∀ ym, (ym ∈ (l.foldl stepC []).map (fun pm => pm.month)) ↔ touchedIn l ym = true) ∧
    (∀ pm ∈ l.foldl stepC [], ∀ p, getVal pm.vals p = cellValue l pm.month p) := by
  induction l using List.reverseRecOn with
  | nil =>
    refine ⟨by simp, ?_, ?_⟩ <;> intro ym <;> simp [touchedIn]
  | append_singleton l c ih =>
    obtain ⟨hnd, hmem, hval⟩ := ih
    rw [List.foldl_append]
    have hstep : List.foldl stepC (l.foldl stepC []) [c] =
        addContribution (l.foldl stepC []) c.1 c.2.1 c.2.2 := rfl
    rw [hstep]
    set A := l.foldl stepC [] with hA
    refine ⟨?_, ?_, ?_⟩
    · rw [addContribution_months]
      by_cases hp : A.any (fun pm => pm.month == c.1)
      · rw [if_pos hp]
        exact hnd
      · rw [if_neg hp]
        have hall : ∀ x ∈ A, ¬ x.month = c.1 := by simpa using hp
        have hnotin : c.1 ∉ A.map (fun pm => pm.month) := by
          intro hc
          rw [List.mem_map] at hc
          obtain ⟨pm, hpm, hpmm⟩ := hc
          exact hall pm hpm hpmm
        simp [List.nodup_append, hnd, hnotin]
    · intro ym
      rw [addContribution_months, touchedIn_append_one]
      by_cases hp : A.any (fun pm => pm.month == c.1)
      · rw [if_pos hp]
        rcases List.any_eq_true.mp hp with ⟨pm, hpm, hpmm⟩
        have hc1 : c.1 ∈ A.map (fun pm => pm.month) :=
          List.mem_map.mpr ⟨pm, hpm, by simpa using hpmm⟩
        constructor
        · intro h
          rw [Bool.or_eq_true, (hmem ym).symm]
          exact Or.inl h
        · intro h
          have h' : touchedIn l ym = true ∨ c.1 = ym := by
            simpa [Bool.or_eq_true] using h
          rcases h' with h' | h'
          · exact (hmem ym).mpr h'
          · exact h' ▸ hc1
      · rw [if_neg hp]
        rw [List.mem_append]
        constructor
        · intro h
          rw [Bool.or_eq_true]
          rcases h with h | h
          · exact Or.inl ((hmem ym).mp h)
          · have : ym = c.1 := by simpa using h
            exact Or.inr (by simpa using this.symm)
        · intro h
          have h' : touchedIn l ym = true ∨ c.1 = ym := by
            simpa [Bool.or_eq_true] using h
          rcases h' with h' | h'
          · exact Or.inl ((hmem ym).mpr h')
          · exact Or.inr (by simpa using h'.symm)
    · intro pm hpm p
      rcases addContribution_mem A c.1 c.2.1 c.2.2 pm hpm with
        ⟨hin, hne⟩ | ⟨pm₀, hin, hm, hmm, hv⟩ | ⟨hany, rfl⟩
      · rw [hval pm hin p, cellValue_append_one]
        have hne' : (c.1 == pm.month) = false := by
          rw [beq_eq_false_iff_ne] at hne ⊢
          exact fun hc => hne hc.symm
        simp [hne']
      · have hmeq : pm₀.month = c.1 := by simpa using hm
        rw [hv, hmm, cellValue_append_one]
        by_cases hpp : p = c.2.1
        · subst hpp
          rw [getVal_setVal_same, hval pm₀ hin c.2.1, hmeq]
          simp
        · rw [getVal_setVal_ne _ _ _ _ hpp, hval pm₀ hin p]
          have hppf : (c.2.1 == p) = false := by
            rw [beq_eq_false_iff_ne]
            exact fun hc => hpp hc.symm
          simp [hppf]
      · have hall : ∀ x ∈ A, ¬ x.month = c.1 := by simpa using hany
        have htouch : touchedIn l c.1 = false := by
          by_contra hc
          rw [Bool.not_eq_false] at hc
          have hmm := (hmem c.1).mpr hc
          rw [List.mem_map] at hmm
          obtain ⟨pm₀, hpm₀, hpmm⟩ := hmm
          exact hall pm₀ hpm₀ hpmm
        show getVal [(c.2.1, c.2.2)] p = cellValue (l ++ [c]) c.1 p
        rw [getVal_single, cellValue_append_one, cellValue_of_not_touched l c.1 p htouch]
        by_cases hpp : c.2.1 == p
        · simp [hpp]
        · simp [hpp]

/-! ### The monthly timeline, characterised -/

instance : IsTrans PMonth (fun a b => strLe a.month b.month = true) :=
  ⟨fun _ _ _ h₁ h₂ => strLe_trans h₁ h₂⟩

instance : IsTotal PMonth (fun a b => strLe a.month b.month = true) :=
  ⟨fun a b => strLe_total a.month b.month⟩

instance : IsTrans QuarterRow (fun a b => strLe a.period b.period = true) :=
  ⟨fun _ _ _ h₁ h₂ => strLe_trans h₁ h₂⟩

instance : IsTotal QuarterRow (fun a b => strLe a.period b.period = true) :=
  ⟨fun a b => strLe_total a.period b.period⟩

instance : IsAntisymm String (fun a b => strLt a b = true) :=
  ⟨fun _ _ h₁ h₂ => by rw [strLt_asymm h₁] at h₂; cases h₂⟩

/-- The row the timeline carries for a month: the three known providers'
accumulated values, rounded to two decimals. -/
def timelineRow (series : List Series) (ym : String) : MonthRow :=
  ⟨ym, round2 (monthValue series ym "eon"), round2 (monthValue series ym "pgnig"),
    round2 (monthValue series ym "mpwik")⟩

/-- The sorted list of months receiving any contribution. -/
def timelineMonths (series : List Series) : List String :=
  (List.insertionSort (fun a b => strLe a.month b.month = true) (buildPM series)).map
    (fun pm => pm.month)

lemma allMonthly_eq_map (series : List Series) :
    allMonthly series = (timelineMonths series).map (timelineRow series) := by
  unfold allMonthly timelineMonths
  rw [List.map_map]
  apply List.map_congr_left
  intro pm hpm
  have hpm' : pm ∈ buildPM series := (List.mem_insertionSort _).mp hpm
  rw [buildPM_eq_foldl] at hpm'
  have hspec := (foldl_stepC_spec (contribs series)).2.2 pm hpm'
  show _ = timelineRow series pm.month
  unfold timelineRow monthValue
  rw [hspec "eon", hspec "pgnig", hspec "mpwik"]

lemma timelineMonths_nodup (series : List Series) : (timelineMonths series).Nodup := by
  unfold timelineMonths
  have hperm : List.Perm ((List.insertionSort (fun a b => strLe a.month b.month = true)
      (buildPM series)).map (fun pm => pm.month)) ((buildPM series).map (fun pm => pm.month)) :=
    (List.perm_insertionSort _ _).map _
  refine hperm.nodup_iff.mpr ?_
  rw [buildPM_eq_foldl]
  exact (foldl_stepC_spec (contribs series)).1

lemma timelineMonths_mem (series : List Series) (ym : String) :
    ym ∈ timelineMonths series ↔ touched series ym = true := by
  unfold timelineMonths
  have hperm : List.Perm ((List.insertionSort (fun a b => strLe a.month b.month = true)
      (buildPM series)).map (fun pm => pm.month)) ((buildPM series).map (fun pm => pm.month)) :=
    (List.perm_insertionSort _ _).map _
  rw [hperm.mem_iff, buildPM_eq_foldl]
  exact (foldl_stepC_spec (contribs series)).2.1 ym

lemma timelineMonths_sorted (series : List Series) :
    (timelineMonths series).Pairwise (fun a b => strLe a b = true) := by
  unfold timelineMonths
  rw [List.pairwise_map]
  exact List.sorted_insertionSort _ (buildPM series)

lemma timelineMonths_sorted_strict (series : List Series) :
    (timelineMonths series).Pairwise (fun a b => strLt a b = true) := by
  have h₁ := timelineMonths_sorted series
  have h₂ := List.Pairwise.and h₁ (timelineMonths_nodup series)
  refine h₂.imp ?_
  rintro a b ⟨hle, hne⟩
  rcases strLe_iff.mp hle with h | h
  · exact h
  · exact absurd h hne

lemma timelineMonths_ext (s₁ s₂ : List Series)
    (ht : ∀ ym, touched s₁ ym = touched s₂ ym) :
    timelineMonths s₁ = timelineMonths s₂ := by
  refine List.eq_of_perm_of_sorted (r := fun a b => strLt a b = true) ?_ ?_ ?_
  · refine List.perm_of_nodup_nodup_toFinset_eq (timelineMonths_nodup s₁)
      (timelineMonths_nodup s₂) ?_
    apply Finset.ext
    intro ym
    rw [List.mem_toFinset, List.mem_toFinset, timelineMonths_mem, timelineMonths_mem, ht]
  · exact timelineMonths_sorted_strict s₁
  · exact timelineMonths_sorted_strict s₂

/-- Two inputs that touch the same months with the same per-cell values yield
identical timelines. -/
lemma allMonthly_ext (s₁ s₂ : List Series)
    (ht : ∀ ym, touched s₁ ym = touched s₂ ym)
    (hv : ∀ ym p, monthValue s₁ ym p = monthValue s₂ ym p) :
    allMonthly s₁ = allMonthly s₂ := by
  rw [allMonthly_eq_map, allMonthly_eq_map, timelineMonths_ext s₁ s₂ ht]
  apply List.map_congr_left
  intro ym _
  unfold timelineRow
  rw [hv, hv, hv]

/-- Dropping records per-record by a predicate that keeps every surviving
record leaves the contribution list unchanged. -/
def filterRecords (keep : BillingRecord → Bool) (series : List Series) : List Series :=
  series.map (fun s => ⟨s.provider, s.data.filter keep⟩)

lemma contribs_filterRecords (keep : BillingRecord → Bool) (series : List Series)
    (hkeep : ∀ d, survives d = true → keep d = true) :
    contribs (filterRecords keep series) = contribs series := by
  unfold contribs filterRecords
  rw [List.flatMap_map]
  have hinner : ∀ (p : String) (dl : List BillingRecord),
      (dl.filter keep).flatMap (fun d => if survives d = true then
        (recordMonths d).map (fun ym => (ym, p, perMonth d)) else []) =
      dl.flatMap (fun d => if survives d = true then
        (recordMonths d).map (fun ym => (ym, p, perMonth d)) else []) := by
    intro p dl
    induction dl with
    | nil => rfl
    | cons d ds ih =>
      by_cases hk : keep d
      · rw [List.filter_cons_of_pos hk, List.flatMap_cons, List.flatMap_cons, ih]
      · rw [List.filter_cons_of_neg (by simpa using hk), List.flatMap_cons, ih]
        have hs : survives d = false := by
          by_contra hc
          rw [Bool.not_eq_false] at hc
          exact hk (hkeep d hc)
        rw [hs]
        simp
  congr 1
  funext s
  exact hinner s.provider s.data

/-! ### Claims -/

/-- C3: for every pair of well-formed dates (months in 1..12),
`getMonthsBetween` returns a never-empty list: the inclusive calendar-month
range from the start month to the end month — advancing one month at a time
and rolling the year after month 12, which is exactly the arithmetic
`12 * year + (month - 1)` index walk on the right-hand side — and falls back
to the single start month when the end month precedes the start month. -/
theorem C3_getMonthsBetween_range (s e : DateYM)
    (hs1 : 1 ≤ s.month) (hs2 : s.month ≤ 12) (he1 : 1 ≤ e.month) (he2 : e.month ≤ 12) :
    getMonthsBetween s e ≠ [] ∧
    getMonthsBetween s e =
      (if 12 * s.year + s.month ≤ 12 * e.year + e.month then
        (List.range (12 * e.year + (e.month - 1) + 1 - (12 * s.year + (s.month - 1)))).map
          (fun k => ymKey ((12 * s.year + (s.month - 1) + k) / 12)
            ((12 * s.year + (s.month - 1) + k) % 12 + 1))
      else [toYearMonth s]) :=
  ⟨getMonthsBetween_ne_nil s e, getMonthsBetween_spec s e hs1 hs2 he1 he2⟩

/-- C3 witness: the concrete range 2024-11 .. 2025-02. -/
theorem C3_getMonthsBetween_range_witness :
    getMonthsBetween ⟨2024, 11⟩ ⟨2025, 2⟩ ≠ [] ∧
    getMonthsBetween ⟨2024, 11⟩ ⟨2025, 2⟩ =
      (if 12 * 2024 + 11 ≤ 12 * 2025 + 2 then
        (List.range (12 * 2025 + (2 - 1) + 1 - (12 * 2024 + (11 - 1)))).map
          (fun k => ymKey ((12 * 2024 + (11 - 1) + k) / 12) ((12 * 2024 + (11 - 1) + k) % 12 + 1))
      else [toYearMonth ⟨2024, 11⟩]) :=
  C3_getMonthsBetween_range ⟨2024, 11⟩ ⟨2025, 2⟩ (by decide) (by decide) (by decide) (by decide)

/-- C2: a record's cost is distributed evenly (`perMonth = cost / monthCount`)
and, in exact rational arithmetic, the sum of the per-month contributions over
the record's month list equals the original cost exactly (the month list is
never empty, so no division by zero occurs). -/
theorem C2_allocation_conservation (d : BillingRecord) (h : d.period_start.isSome = true) :
    perMonth d = jsCost d / ((recordMonths d).length : ℚ) ∧
    ((recordMonths d).map (fun _ => perMonth d)).sum = jsCost d := by
  refine ⟨rfl, ?_⟩
  have hne : recordMonths d ≠ [] := recordMonths_ne_nil d h
  have hpos : 0 < (recordMonths d).length := List.length_pos.mpr hne
  have hlen : ((recordMonths d).length : ℚ) ≠ 0 := by
    exact_mod_cast Nat.pos_iff_ne_zero.mp hpos
  have hmap : ∀ (l : List String), l.map (fun _ => perMonth d) =
      List.replicate l.length (perMonth d) := by
    intro l
    induction l with
    | nil => rfl
    | cons x xs ih => simp [ih, List.replicate_succ]
  rw [hmap, List.sum_replicate, nsmul_eq_mul]
  unfold perMonth
  field_simp

/-- C2 witness: a three-month record with cost 300. -/
theorem C2_allocation_conservation_witness :
    (⟨some ⟨2024, 1⟩, some ⟨2024, 3⟩, some 300, false⟩ : BillingRecord).period_start.isSome
        = true ∧
    (perMonth ⟨some ⟨2024, 1⟩, some ⟨2024, 3⟩, some 300, false⟩ =
      jsCost ⟨some ⟨2024, 1⟩, some ⟨2024, 3⟩, some 300, false⟩ /
        ((recordMonths ⟨some ⟨2024, 1⟩, some ⟨2024, 3⟩, some 300, false⟩).length : ℚ) ∧
    ((recordMonths ⟨some ⟨2024, 1⟩, some ⟨2024, 3⟩, some 300, false⟩).map
      (fun _ => perMonth ⟨some ⟨2024, 1⟩, some ⟨2024, 3⟩, some 300, false⟩)).sum =
      jsCost ⟨some ⟨2024, 1⟩, some ⟨2024, 3⟩, some 300, false⟩) :=
  ⟨rfl, C2_allocation_conservation ⟨some ⟨2024, 1⟩, some ⟨2024, 3⟩, some 300, false⟩ rfl⟩

/-- C1 counterexample: the claim "the output on any record list is identical
to the output on the same list with all cost_gross ≤ 0 records removed" fails
at a record with cost_gross = −100: JavaScript's falsiness check `!cost` only
excludes 0, so the negative record produces a month row. -/
theorem C1_counterexample :
    allMonthly [⟨"eon", [⟨some ⟨2024, 1⟩, none, some (-100), false⟩]⟩] ≠
      allMonthly [⟨"eon", ([] : List BillingRecord)⟩] := by
  intro h
  have h₁ : (allMonthly [⟨"eon", [⟨some ⟨2024, 1⟩, none, some (-100), false⟩]⟩]).map
      (fun r => r.month) = ["2024-01"] := by decide
  have h₂ : (allMonthly [⟨"eon", ([] : List BillingRecord)⟩]).map
      (fun r => r.month) = [] := by decide
  rw [h] at h₁
  rw [h₂] at h₁
  cases h₁

/-- C1 (amended): a record with `cost_gross` absent or equal to 0, or with
`period_start` absent, contributes nothing — removing all such records leaves
`allMonthly` unchanged.  (Unlike the original claim, a strictly negative
`cost_gross` is truthy in JavaScript and does contribute.) -/
theorem C1_amended_zero_or_missing_excluded (series : List Series) :
    allMonthly (filterRecords
      (fun d => !(decide (jsCost d = 0)) && d.period_start.isSome) series) =
      allMonthly series := by
  have hc := contribs_filterRecords
    (fun d => !(decide (jsCost d = 0)) && d.period_start.isSome) series ?_
  · exact allMonthly_ext _ _ (fun ym => by unfold touched; rw [hc])
      (fun ym p => by unfold monthValue; rw [hc])
  · intro d hd
    simp only [survives, Bool.and_eq_true] at hd
    obtain ⟨⟨_, hcost⟩, hsome⟩ := hd
    simp only [Bool.and_eq_true, Bool.not_eq_true']
    refine ⟨?_, hsome⟩
    simp only [decide_eq_true_eq] at hcost
    simp [hcost]

/-- C7: estimate records contribute nothing — removing every
`is_estimate = true` record leaves `allMonthly` unchanged; in particular an
input consisting solely of one estimate record with cost 100 yields the empty
timeline. -/
theorem C7_estimate_exclusion (series : List Series) :
    allMonthly (filterRecords (fun d => !d.is_estimate) series) = allMonthly series ∧
    allMonthly [⟨"eon", [⟨some ⟨2024, 1⟩, none, some 100, true⟩]⟩] = [] := by
  constructor
  · have hc := contribs_filterRecords (fun d => !d.is_estimate) series ?_
    · exact allMonthly_ext _ _ (fun ym => by unfold touched; rw [hc])
        (fun ym p => by unfold monthValue; rw [hc])
    · intro d hd
      simp only [survives, Bool.and_eq_true] at hd
      simp [hd.1.1]
  · decide

/-- C6: the pan stride is `max(1, ⌊widthMonths / 2⌋)`; stepping back (adding
the stride) then forward (subtracting it, clamped at 0) restores any
offset ≥ 0, and at offset 0 the window computation reports
`canGoForward = false` on every timeline. -/
theorem C6_pan_round_trip (windowMonths : Nat) (o : Int)
    (_hw : 0 < windowMonths) (ho : 0 ≤ o) :
    goForward windowMonths (goBack windowMonths o) = o ∧
    (∀ timeline : List MonthRow, (computeWindow timeline windowMonths 0).canGoForward = false) := by
  constructor
  · unfold goForward goBack
    omega
  · intro timeline
    cases timeline with
    | nil => rfl
    | cons r rs =>
      simp only [computeWindow]
      by_cases h : windowMonths = 0
      · rw [if_pos h]
      · rw [if_neg h]
        rfl

/-- C6 witness: width 12, offset 5, a one-row timeline. -/
theorem C6_pan_round_trip_witness :
    0 < 12 ∧ (0 : Int) ≤ 5 ∧ goForward 12 (goBack 12 5) = 5 ∧
      (computeWindow [⟨"2024-01", 0, 0, 0⟩] 12 0).canGoForward = false :=
  ⟨by decide, by decide, (C6_pan_round_trip 12 5 (by decide) (by decide)).1,
    (C6_pan_round_trip 12 5 (by decide) (by decide)).2 [⟨"2024-01", 0, 0, 0⟩]⟩

/-- C4: on a non-empty timeline with well-formed keys and
`widthMonths > 0`, `offsetMonths ≥ 0` (window kept inside four-digit years),
the window is exact calendar arithmetic on the absolute month index:
`end = lastMonth − offset` months, `start = end − (widthMonths − 1)` months
(borrowing across years), `canGoBack` is true exactly when the window start
lies strictly after the first month, `canGoForward` exactly when
`offset > 0`; and on the concrete 2022-01..2024-12 timeline with width 12 and
offset 0 the window is 2024-01..2024-12 with `canGoBack` and not
`canGoForward`. -/
theorem C4_computeWindow_arithmetic (r : MonthRow) (rs : List MonthRow)
    (windowMonths : Nat) (offset : Int) (fy fm ly lm : Nat)
    (hfirst : r.month = ymKey fy fm)
    (hlast : ((r :: rs).getLast (List.cons_ne_nil r rs)).month = ymKey ly lm)
    (hfy1 : 1000 ≤ fy) (hfy2 : fy ≤ 9999) (hfm1 : 1 ≤ fm) (hfm2 : fm ≤ 12)
    (hly1 : 1000 ≤ ly) (hly2 : ly ≤ 9999) (hlm1 : 1 ≤ lm) (hlm2 : lm ≤ 12)
    (hw : 0 < windowMonths) (ho : 0 ≤ offset)
    (hrange : 12000 ≤ 12 * (ly : Int) + ((lm : Int) - 1) - offset - ((windowMonths : Int) - 1)) :
    computeWindow (r :: rs) windowMonths offset =
      ⟨some (ymKey ((12 * (ly : Int) + ((lm : Int) - 1) - offset -
            ((windowMonths : Int) - 1)).toNat / 12)
          ((12 * (ly : Int) + ((lm : Int) - 1) - offset -
            ((windowMonths : Int) - 1)).toNat % 12 + 1)),
       some (ymKey ((12 * (ly : Int) + ((lm : Int) - 1) - offset).toNat / 12)
          ((12 * (ly : Int) + ((lm : Int) - 1) - offset).toNat % 12 + 1)),
       decide (12 * fy + (fm - 1) < (12 * (ly : Int) + ((lm : Int) - 1) - offset -
            ((windowMonths : Int) - 1)).toNat),
       decide (0 < offset)⟩ ∧
    computeWindow ((getMonthsBetween ⟨2022, 1⟩ ⟨2024, 12⟩).map
        (fun k => (⟨k, 0, 0, 0⟩ : MonthRow))) 12 0 =
      ⟨some "2024-01", some "2024-12", true, false⟩ := by
  constructor
  · have hne : ¬ windowMonths = 0 := by omega
    show (if windowMonths = 0 then _ else _) = _
    rw [if_neg hne, hlast, hfirst]
    have hend := addMonths_ymKey ly lm (-offset) hly1 hly2 hlm1 hlm2 (by omega) (by omega)
    set eIdx : Int := 12 * (ly : Int) + ((lm : Int) - 1) + -offset with heIdx
    have heIdx' : eIdx = 12 * (ly : Int) + ((lm : Int) - 1) - offset := by omega
    have heY1 : 1000 ≤ eIdx.toNat / 12 := by omega
    have heY2 : eIdx.toNat / 12 ≤ 9999 := by omega
    have heM1 : 1 ≤ eIdx.toNat % 12 + 1 := by omega
    have heM2 : eIdx.toNat % 12 + 1 ≤ 12 := by omega
    rw [hend]
    have hstart := addMonths_ymKey (eIdx.toNat / 12) (eIdx.toNat % 12 + 1)
      (-((windowMonths : Int) - 1)) heY1 heY2 heM1 heM2 (by omega) (by omega)
    rw [hstart]
    have hsidx : (12 * ((eIdx.toNat / 12 : Nat) : Int) +
        (((eIdx.toNat % 12 + 1 : Nat) : Int) - 1) + -((windowMonths : Int) - 1)) =
        12 * (ly : Int) + ((lm : Int) - 1) - offset - ((windowMonths : Int) - 1) := by
      omega
    rw [hsidx, heIdx']
    have hcgb : strLt (ymKey fy fm)
        (ymKey ((12 * (ly : Int) + ((lm : Int) - 1) - offset -
            ((windowMonths : Int) - 1)).toNat / 12)
          ((12 * (ly : Int) + ((lm : Int) - 1) - offset -
            ((windowMonths : Int) - 1)).toNat % 12 + 1)) =
        decide (12 * fy + (fm - 1) < (12 * (ly : Int) + ((lm : Int) - 1) - offset -
            ((windowMonths : Int) - 1)).toNat) := by
      set sIdx : Int := 12 * (ly : Int) + ((lm : Int) - 1) - offset -
        ((windowMonths : Int) - 1) with hsIdxd
      have hiff := strLt_ymKey fy fm (sIdx.toNat / 12) (sIdx.toNat % 12 + 1)
        hfy1 hfy2 (by omega) (by omega) (by omega) (by omega)
      by_cases hlt : 12 * fy + (fm - 1) < sIdx.toNat
      · rw [decide_eq_true hlt]
        exact hiff.mpr (by omega)
      · rw [decide_eq_false hlt]
        rw [Bool.eq_false_iff]
        intro hc
        exact hlt (by
          have := hiff.mp hc
          omega)
    rw [hcgb]
  · decide

/-- C4 witness: a two-row timeline 2022-01 / 2024-12 with width 12 and
offset 0 (the general arithmetic instantiated), plus the concrete dense
timeline from the specification. -/
theorem C4_computeWindow_arithmetic_witness :
    computeWindow [⟨ymKey 2022 1, 0, 0, 0⟩, ⟨ymKey 2024 12, 0, 0, 0⟩] 12 0 =
      ⟨some (ymKey 2024 1), some (ymKey 2024 12), true, false⟩ ∧
    computeWindow ((getMonthsBetween ⟨2022, 1⟩ ⟨2024, 12⟩).map
        (fun k => (⟨k, 0, 0, 0⟩ : MonthRow))) 12 0 =
      ⟨some "2024-01", some "2024-12", true, false⟩ := by
  have h := C4_computeWindow_arithmetic ⟨ymKey 2022 1, 0, 0, 0⟩ [⟨ymKey 2024 12, 0, 0, 0⟩]
    12 0 2022 1 2024 12 rfl rfl (by decide) (by decide) (by decide) (by decide)
    (by decide) (by decide) (by decide) (by decide) (by decide) (by decide) (by decide)
  refine ⟨?_, h.2⟩
  rw [h.1]
  decide

/-! ### Unknown providers -/

/-- The three providers the timeline projection surfaces. -/
def knownProvider (p : String) : Bool := p == "eon" || p == "pgnig" || p == "mpwik"

lemma contribs_nil : contribs [] = [] := rfl

lemma contribs_cons (s : Series) (ss : List Series) :
    contribs (s :: ss) = (s.data.flatMap fun d => if survives d = true then
      (recordMonths d).map (fun ym => (ym, s.provider, perMonth d)) else []) ++ contribs ss := by
  simp [contribs]

lemma cellValue_append (l₁ l₂ : List (String × String × ℚ)) (ym p : String) :
    cellValue (l₁ ++ l₂) ym p = cellValue l₁ ym p + cellValue l₂ ym p := by
  unfold cellValue
  rw [List.filter_append, List.map_append, List.sum_append]

lemma touchedIn_append (l₁ l₂ : List (String × String × ℚ)) (ym : String) :
    touchedIn (l₁ ++ l₂) ym = (touchedIn l₁ ym || touchedIn l₂ ym) := by
  unfold touchedIn
  rw [List.any_append]

lemma cellValue_eq_zero_of_provider (l : List (String × String × ℚ)) (ym p : String)
    (h : ∀ c ∈ l, c.2.1 ≠ p) : cellValue l ym p = 0 := by
  unfold cellValue
  have hnil : l.filter (fun c => c.1 == ym && c.2.1 == p) = [] := by
    rw [List.filter_eq_nil_iff]
    intro c hc hcp
    have hpair : (c.1 == ym) = true ∧ (c.2.1 == p) = true := by simpa using hcp
    exact h c hc (by simpa using hpair.2)
  rw [hnil]
  rfl

lemma mem_inner_provider (s : Series) (c : String × String × ℚ)
    (hc : c ∈ s.data.flatMap fun d => if survives d = true then
      (recordMonths d).map (fun ym => (ym, s.provider, perMonth d)) else []) :
    c.2.1 = s.provider := by
  rw [List.mem_flatMap] at hc
  obtain ⟨d, _, hcd⟩ := hc
  by_cases hs : survives d = true
  · rw [if_pos hs, List.mem_map] at hcd
    obtain ⟨ym, _, rfl⟩ := hcd
    rfl
  · rw [if_neg hs] at hcd
    cases hcd

/-- Dropping whole series whose provider differs from `p` does not change the
cell values at provider `p`. -/
lemma monthValue_filter_series (keepS : Series → Bool) (series : List Series) (ym p : String)
    (h : ∀ s ∈ series, keepS s = false → s.provider ≠ p) :
    monthValue (series.filter keepS) ym p = monthValue series ym p := by
  unfold monthValue
  induction series with
  | nil => rfl
  | cons s ss ih =>
    have hss := ih (fun s' hs' => h s' (List.mem_cons_of_mem s hs'))
    by_cases hk : keepS s
    · rw [List.filter_cons_of_pos hk, contribs_cons, contribs_cons, cellValue_append,
        cellValue_append, hss]
    · rw [List.filter_cons_of_neg (by simpa using hk), contribs_cons, cellValue_append, hss]
      have hzero : cellValue (s.data.flatMap fun d => if survives d = true then
          (recordMonths d).map (fun ym' => (ym', s.provider, perMonth d)) else []) ym p = 0 := by
        apply cellValue_eq_zero_of_provider
        intro c hc
        rw [mem_inner_provider s c hc]
        exact h s (List.mem_cons_self s ss) (by simpa using hk)
      rw [hzero]
      ring

lemma touched_filter_imp (keepS : Series → Bool) (series : List Series) (ym : String)
    (h : touched (series.filter keepS) ym = true) : touched series ym = true := by
  unfold touched at h ⊢
  induction series with
  | nil => exact h
  | cons s ss ih =>
    rw [contribs_cons, touchedIn_append]
    by_cases hk : keepS s
    · rw [List.filter_cons_of_pos hk, contribs_cons, touchedIn_append] at h
      have h'' : touchedIn (s.data.flatMap fun d => if survives d = true then
          (recordMonths d).map (fun ym' => (ym', s.provider, perMonth d)) else []) ym = true ∨
          touchedIn (contribs (ss.filter keepS)) ym = true := by
        simpa using h
      rcases h'' with h'' | h''
      · simp [h'']
      · simp [ih h'']
    · rw [List.filter_cons_of_neg (by simpa using hk)] at h
      simp [ih h]

/-- C8 counterexample: removing a record with an unknown provider changes the
output: an unknown-provider record still creates its month's (all-zero) row. -/
theorem C8_counterexample :
    allMonthly [⟨"tauron", [⟨some ⟨2024, 5⟩, none, some 100, false⟩]⟩] ≠
      allMonthly [⟨"tauron", ([] : List BillingRecord)⟩] := by
  intro h
  have h₁ : (allMonthly [⟨"tauron", [⟨some ⟨2024, 5⟩, none, some 100, false⟩]⟩]).map
      (fun r => r.month) = ["2024-05"] := by decide
  have h₂ : (allMonthly [⟨"tauron", ([] : List BillingRecord)⟩]).map
      (fun r => r.month) = [] := by decide
  rw [h] at h₁
  rw [h₂] at h₁
  cases h₁

/-- C8 (amended): unknown-provider records never affect the surfaced values —
for each of the three known providers every cell value is unchanged when the
unknown-provider series are dropped — and the only difference they can make
to the output is extra all-zero rows: the timeline of the known-provider
subset is exactly the full timeline restricted to the months the
known-provider subset touches. -/
theorem C8_amended_unknown_providers (series : List Series) :
    (∀ ym p, knownProvider p = true →
      monthValue (series.filter (fun s => knownProvider s.provider)) ym p =
        monthValue series ym p) ∧
    allMonthly (series.filter (fun s => knownProvider s.provider)) =
      (allMonthly series).filter
        (fun row => touched (series.filter (fun s => knownProvider s.provider)) row.month) := by
  have hval : ∀ ym p, knownProvider p = true →
      monthValue (series.filter (fun s => knownProvider s.provider)) ym p =
        monthValue series ym p := by
    intro ym p hp
    apply monthValue_filter_series
    intro s _ hks hcontra
    rw [hcontra] at hks
    rw [hks] at hp
    cases hp
  refine ⟨hval, ?_⟩
  rw [allMonthly_eq_map, allMonthly_eq_map, List.filter_map]
  have hkeys : timelineMonths (series.filter (fun s => knownProvider s.provider)) =
      (timelineMonths series).filter
        (fun ym => touched (series.filter (fun s => knownProvider s.provider)) ym) := by
    refine List.eq_of_perm_of_sorted (r := fun a b => strLt a b = true) ?_ ?_ ?_
    · refine List.perm_of_nodup_nodup_toFinset_eq (timelineMonths_nodup _)
        ((timelineMonths_nodup series).filter _) ?_
      apply Finset.ext
      intro ym
      rw [List.mem_toFinset, List.mem_toFinset, List.mem_filter, timelineMonths_mem,
        timelineMonths_mem]
      constructor
      · intro h
        exact ⟨touched_filter_imp _ series ym h, h⟩
      · intro h
        exact h.2
    · exact timelineMonths_sorted_strict _
    · exact (timelineMonths_sorted_strict series).filter _
  rw [hkeys]
  apply List.map_congr_left
  intro ym hym
  unfold timelineRow
  rw [hval ym "eon" rfl, hval ym "pgnig" rfl, hval ym "mpwik" rfl]

/-! ### Well-formed inputs and the shape of the timeline -/

/-- A well-formed date: four-digit year, month 1..12. -/
def wfDate (dt : DateYM) : Bool :=
  decide (1000 ≤ dt.year ∧ dt.year ≤ 9999 ∧ 1 ≤ dt.month ∧ dt.month ≤ 12)

/-- A record whose (present) dates are well-formed. -/
def wfRecord (d : BillingRecord) : Bool :=
  d.period_start.all wfDate && d.period_end.all wfDate

lemma touched_exists (series : List Series) (ym : String) (h : touched series ym = true) :
    ∃ s ∈ series, ∃ d ∈ s.data, survives d = true ∧ ym ∈ recordMonths d := by
  unfold touched touchedIn at h
  rcases List.any_eq_true.mp h with ⟨c, hc, hcym⟩
  unfold contribs at hc
  rw [List.mem_flatMap] at hc
  obtain ⟨s, hs, hc⟩ := hc
  rw [List.mem_flatMap] at hc
  obtain ⟨d, hd, hc⟩ := hc
  by_cases hsv : survives d = true
  · rw [if_pos hsv, List.mem_map] at hc
    obtain ⟨ym', hym', rfl⟩ := hc
    have hymeq : ym' = ym := by simpa using hcym
    exact ⟨s, hs, d, hd, hsv, hymeq ▸ hym'⟩
  · rw [if_neg hsv] at hc
    cases hc

lemma mem_recordMonths_wf (d : BillingRecord) (hd : wfRecord d = true) {ym : String}
    (h : ym ∈ recordMonths d) :
    ∃ y m, 1000 ≤ y ∧ y ≤ 9999 ∧ 1 ≤ m ∧ m ≤ 12 ∧ ym = ymKey y m := by
  unfold recordMonths at h
  rcases hps : d.period_start with _ | st
  · rw [hps] at h; cases h
  · rw [hps] at h
    have h' : ym ∈ getMonthsBetween st (d.period_end.getD st) := h
    clear h
    unfold wfRecord at hd
    rw [hps] at hd
    have hd' : wfDate st = true ∧ d.period_end.all wfDate = true := by simpa using hd
    have hstb : 1000 ≤ st.year ∧ st.year ≤ 9999 ∧ 1 ≤ st.month ∧ st.month ≤ 12 :=
      of_decide_eq_true hd'.1
    have henw : wfDate (d.period_end.getD st) = true := by
      rcases hpe : d.period_end with _ | en
      · exact hd'.1
      · have := hd'.2
        rw [hpe] at this
        simpa using this
    have henb : 1000 ≤ (d.period_end.getD st).year ∧ (d.period_end.getD st).year ≤ 9999 ∧
        1 ≤ (d.period_end.getD st).month ∧ (d.period_end.getD st).month ≤ 12 :=
      of_decide_eq_true henw
    rw [getMonthsBetween_spec st (d.period_end.getD st) hstb.2.2.1 hstb.2.2.2
      henb.2.2.1 henb.2.2.2] at h'
    by_cases hc : 12 * st.year + st.month ≤
        12 * (d.period_end.getD st).year + (d.period_end.getD st).month
    · rw [if_pos hc, List.mem_map] at h'
      obtain ⟨k, hk, rfl⟩ := h'
      rw [List.mem_range] at hk
      refine ⟨(12 * st.year + (st.month - 1) + k) / 12,
        (12 * st.year + (st.month - 1) + k) % 12 + 1, ?_, ?_, ?_, ?_, rfl⟩ <;> omega
    · rw [if_neg hc] at h'
      rcases List.mem_singleton.mp h' with rfl
      exact ⟨st.year, st.month, hstb.1, hstb.2.1, hstb.2.2.1, hstb.2.2.2, rfl⟩

lemma touched_wf (series : List Series)
    (hwf : ∀ s ∈ series, ∀ d ∈ s.data, wfRecord d = true) (ym : String)
    (h : touched series ym = true) :
    ∃ y m, 1000 ≤ y ∧ y ≤ 9999 ∧ 1 ≤ m ∧ m ≤ 12 ∧ ym = ymKey y m := by
  obtain ⟨s, hs, d, hd, _, hmem⟩ := touched_exists series ym h
  exact mem_recordMonths_wf d (hwf s hs d hd) hmem

lemma allMonthly_map_month (series : List Series) :
    (allMonthly series).map (fun r => r.month) = timelineMonths series := by
  rw [allMonthly_eq_map, List.map_map]
  have hcomp : ((fun r : MonthRow => r.month) ∘ timelineRow series) = fun ym => ym := rfl
  rw [hcomp]
  exact List.map_id (timelineMonths series)

/-- C9: on well-formed input the timeline has exactly one row per month that
received any contribution (no duplicates, and a month appears exactly when
touched), the rows are strictly ascending in code-point order of their
zero-padded `YYYY-MM` keys, that order coincides with chronological order of
the parsed (year, month) pairs, and every provider field is the half-up
2-decimal rounding of that cell's exact accumulated value. -/
theorem C9_timeline_shape (series : List Series)
    (hwf : ∀ s ∈ series, ∀ d ∈ s.data, wfRecord d = true) :
    ((allMonthly series).map (fun r => r.month)).Nodup ∧
    (∀ ym, ym ∈ (allMonthly series).map (fun r => r.month) ↔ touched series ym = true) ∧
    (allMonthly series).Pairwise (fun a b => strLt a.month b.month = true) ∧
    (allMonthly series).Pairwise (fun a b => ∃ y₁ m₁ y₂ m₂,
      1000 ≤ y₁ ∧ y₁ ≤ 9999 ∧ 1 ≤ m₁ ∧ m₁ ≤ 12 ∧
      1000 ≤ y₂ ∧ y₂ ≤ 9999 ∧ 1 ≤ m₂ ∧ m₂ ≤ 12 ∧
      a.month = ymKey y₁ m₁ ∧ b.month = ymKey y₂ m₂ ∧
      (y₁ < y₂ ∨ (y₁ = y₂ ∧ m₁ < m₂))) ∧
    (∀ r ∈ allMonthly series,
      r.eon = round2 (monthValue series r.month "eon") ∧
      r.pgnig = round2 (monthValue series r.month "pgnig") ∧
      r.mpwik = round2 (monthValue series r.month "mpwik")) := by
  have hmonths := allMonthly_map_month series
  have hsorted : (allMonthly series).Pairwise (fun a b => strLt a.month b.month = true) := by
    have h := timelineMonths_sorted_strict series
    rw [← hmonths, List.pairwise_map] at h
    exact h
  refine ⟨?_, ?_, hsorted, ?_, ?_⟩
  · rw [hmonths]
    exact timelineMonths_nodup series
  · intro ym
    rw [hmonths]
    exact timelineMonths_mem series ym
  · refine hsorted.imp_of_mem ?_
    intro a b ha hb hab
    have hta : touched series a.month = true := by
      rw [← timelineMonths_mem, ← hmonths]
      exact List.mem_map.mpr ⟨a, ha, rfl⟩
    have htb : touched series b.month = true := by
      rw [← timelineMonths_mem, ← hmonths]
      exact List.mem_map.mpr ⟨b, hb, rfl⟩
    obtain ⟨y₁, m₁, hy₁, hy₁', hm₁, hm₁', hka⟩ := touched_wf series hwf a.month hta
    obtain ⟨y₂, m₂, hy₂, hy₂', hm₂, hm₂', hkb⟩ := touched_wf series hwf b.month htb
    refine ⟨y₁, m₁, y₂, m₂, hy₁, hy₁', hm₁, hm₁', hy₂, hy₂', hm₂, hm₂', hka, hkb, ?_⟩
    rw [hka, hkb] at hab
    exact (strLt_ymKey y₁ m₁ y₂ m₂ hy₁ hy₁' hy₂ hy₂' (by omega) (by omega)).mp hab
  · intro r hr
    rw [allMonthly_eq_map] at hr
    rw [List.mem_map] at hr
    obtain ⟨ym, _, rfl⟩ := hr
    exact ⟨rfl, rfl, rfl⟩

/-- C9 witness: a two-record input spanning 2023-12..2024-01 (year rollover). -/
theorem C9_timeline_shape_witness :
    (∀ s ∈ [(⟨"eon", [⟨some ⟨2023, 12⟩, some ⟨2024, 1⟩, some 50, false⟩]⟩ : Series)],
      ∀ d ∈ s.data, wfRecord d = true) ∧
    ((allMonthly [⟨"eon", [⟨some ⟨2023, 12⟩, some ⟨2024, 1⟩, some 50, false⟩]⟩]).map
      (fun r => r.month)).Nodup := by
  refine ⟨by decide, ?_⟩
  exact (C9_timeline_shape [⟨"eon", [⟨some ⟨2023, 12⟩, some ⟨2024, 1⟩, some 50, false⟩]⟩]
    (by decide)).1

/-! ### Quarter aggregation, characterised -/

lemma toQuarter_ymKey (y m : Nat) (hy1 : 1000 ≤ y) (hy2 : y ≤ 9999) (hm : m ≤ 99) :
    toQuarter (ymKey y m) = Nat.repr y ++ "-Q" ++ Nat.repr ((jsNat (pad2 m) + 2) / 3) := by
  unfold toQuarter
  rw [jsSplitDash_ymKey y m hy1 hy2 hm]
  rfl

lemma addQuarter_months (acc : List QuarterRow) (row : MonthRow) :
    (addQuarter acc row).map (fun q => q.period) =
      if acc.any (fun q => q.period == toQuarter row.month) = true then
        acc.map (fun q => q.period)
      else acc.map (fun q => q.period) ++ [toQuarter row.month] := by
  unfold addQuarter
  by_cases h : acc.any (fun q => q.period == toQuarter row.month)
  · rw [if_pos h, if_pos h, List.map_map]
    apply List.map_congr_left
    intro q _
    by_cases hq : q.period = toQuarter row.month <;> simp [hq]
  · rw [if_neg h, if_neg h, List.map_append]
    rfl

lemma addQuarter_mem (acc : List QuarterRow) (row : MonthRow) (q : QuarterRow)
    (hq : q ∈ addQuarter acc row) :
    (q ∈ acc ∧ (q.period == toQuarter row.month) = false) ∨
    (∃ q₀ ∈ acc, (q₀.period == toQuarter row.month) = true ∧
      q = ⟨q₀.period, q₀.eon + row.eon, q₀.pgnig + row.pgnig, q₀.mpwik + row.mpwik⟩) ∨
    (acc.any (fun q' => q'.period == toQuarter row.month) = false ∧
      q = ⟨toQuarter row.month, row.eon, row.pgnig, row.mpwik⟩) := by
  unfold addQuarter at hq
  by_cases h : acc.any (fun q' => q'.period == toQuarter row.month)
  · rw [if_pos h] at hq
    rw [List.mem_map] at hq
    obtain ⟨q₀, hq₀, rfl⟩ := hq
    by_cases hm : q₀.period = toQuarter row.month
    · right; left
      exact ⟨q₀, hq₀, by simpa using hm, by simp [hm]⟩
    · left
      exact ⟨by simpa [hm] using hq₀, by simp [hm]⟩
  · rw [if_neg h] at hq
    rcases List.mem_append.mp hq with hin | hin
    · left
      have hall : ∀ x ∈ acc, ¬ x.period = toQuarter row.month := by simpa using h
      exact ⟨hin, beq_eq_false_iff_ne.mpr (hall q hin)⟩
    · right; right
      exact ⟨by simpa using h, by simpa using hin⟩

lemma sum_map_update (acc : List QuarterRow) (qk : String) (F : QuarterRow → QuarterRow)
    (f : QuarterRow → ℚ) (c : ℚ)
    (hF : ∀ q, f (F q) = f q + c)
    (hnd : (acc.map (fun q => q.period)).Nodup) (hmem : qk ∈ acc.map (fun q => q.period)) :
    ((acc.map (fun q => if q.period == qk then F q else q)).map f).sum =
      (acc.map f).sum + c := by
  induction acc with
  | nil => cases hmem
  | cons q qs ih =>
    rw [List.map_cons] at hnd
    by_cases hq : q.period = qk
    · have hqs : ∀ q' ∈ qs, ¬ q'.period = qk := by
        intro q' hq' hc
        have : q.period ∈ qs.map (fun q => q.period) :=
          List.mem_map.mpr ⟨q', hq', by rw [hc, hq]⟩
        exact (List.nodup_cons.mp hnd).1 this
      have hqs' : qs.map (fun q' => if q'.period == qk then F q' else q') = qs := by
        conv_rhs => rw [← List.map_id qs]
        apply List.map_congr_left
        intro q' hq'
        simp [hqs q' hq']
      simp only [List.map_cons, List.sum_cons, hqs']
      rw [if_pos (show (q.period == qk) = true by simp [hq]), hF]
      ring
    · have hmem' : qk ∈ qs.map (fun q => q.period) := by
        rcases List.mem_cons.mp hmem with h | h
        · exact absurd h.symm hq
        · exact h
      simp only [List.map_cons, List.sum_cons, ih (List.nodup_cons.mp hnd).2 hmem']
      rw [if_neg (show ¬ (q.period == qk) = true by simp [hq])]
      ring

/-- Master invariant of the quarter accumulation. -/
lemma foldl_addQuarter_spec (rows : List MonthRow) :
    ((rows.foldl addQuarter []).map (fun q => q.period)).Nodup ∧
    (∀ qk, qk ∈ (rows.foldl addQuarter []).map (fun q => q.period) ↔
      rows.any (fun row => toQuarter row.month == qk) = true) ∧
    (∀ q ∈ rows.foldl addQuarter [],
      q.eon = ((rows.filter (fun row => toQuarter row.month == q.period)).map
        (fun row => row.eon)).sum ∧
      q.pgnig = ((rows.filter (fun row => toQuarter row.month == q.period)).map
        (fun row => row.pgnig)).sum ∧
      q.mpwik = ((rows.filter (fun row => toQuarter row.month == q.period)).map
        (fun row => row.mpwik)).sum) ∧
    (((rows.foldl addQuarter []).map (fun q => q.eon)).sum =
        (rows.map (fun r => r.eon)).sum ∧
      ((rows.foldl addQuarter []).map (fun q => q.pgnig)).sum =
        (rows.map (fun r => r.pgnig)).sum ∧
      ((rows.foldl addQuarter []).map (fun q => q.mpwik)).sum =
        (rows.map (fun r => r.mpwik)).sum) := by
  induction rows using List.reverseRecOn with
  | nil =>
    refine ⟨by simp, ?_, ?_, by simp⟩
    · intro qk
      simp
    · intro q hq
      cases hq
  | append_singleton l row ih =>
    obtain ⟨hnd, hmem, hval, hsum⟩ := ih
    rw [List.foldl_append]
    have hstep : List.foldl addQuarter (l.foldl addQuarter []) [row] =
        addQuarter (l.foldl addQuarter []) row := rfl
    rw [hstep]
    set A := l.foldl addQuarter [] with hA
    have hfilter : ∀ (qk : String) (g : MonthRow → ℚ),
        (((l ++ [row]).filter (fun r => toQuarter r.month == qk)).map g).sum =
        ((l.filter (fun r => toQuarter r.month == qk)).map g).sum +
          (if (toQuarter row.month == qk) = true then g row else 0) := by
      intro qk g
      rw [List.filter_append, List.map_append, List.sum_append]
      congr 1
      by_cases h : (toQuarter row.month == qk)
      · simp [List.filter, h]
      · simp only [Bool.not_eq_true] at h
        simp [List.filter, h]
    refine ⟨?_, ?_, ?_, ?_⟩
    · rw [addQuarter_months]
      by_cases hp : A.any (fun q => q.period == toQuarter row.month)
      · rw [if_pos hp]
        exact hnd
      · rw [if_neg hp]
        have hall : ∀ x ∈ A, ¬ x.period = toQuarter row.month := by simpa using hp
        have hnotin : toQuarter row.month ∉ A.map (fun q => q.period) := by
          intro hc
          rw [List.mem_map] at hc
          obtain ⟨q, hq, hqq⟩ := hc
          exact hall q hq hqq
        simp [List.nodup_append, hnd, hnotin]
    · intro qk
      rw [addQuarter_months, List.any_append]
      by_cases hp : A.any (fun q => q.period == toQuarter row.month)
      · rw [if_pos hp]
        rcases List.any_eq_true.mp hp with ⟨q, hq, hqq⟩
        have hc1 : toQuarter row.month ∈ A.map (fun q => q.period) :=
          List.mem_map.mpr ⟨q, hq, by simpa using hqq⟩
        constructor
        · intro h
          rw [Bool.or_eq_true]
          exact Or.inl ((hmem qk).mp h)
        · intro h
          have h' : l.any (fun r => toQuarter r.month == qk) = true ∨
              toQuarter row.month = qk := by simpa [Bool.or_eq_true] using h
          rcases h' with h' | h'
          · exact (hmem qk).mpr h'
          · exact h' ▸ hc1
      · rw [if_neg hp, List.mem_append]
        constructor
        · intro h
          rw [Bool.or_eq_true]
          rcases h with h | h
          · exact Or.inl ((hmem qk).mp h)
          · have : qk = toQuarter row.month := by simpa using h
            exact Or.inr (by simpa using this.symm)
        · intro h
          have h' : l.any (fun r => toQuarter r.month == qk) = true ∨
              toQuarter row.month = qk := by simpa [Bool.or_eq_true] using h
          rcases h' with h' | h'
          · exact Or.inl ((hmem qk).mpr h')
          · exact Or.inr (by simpa using h'.symm)
    · intro q hq
      rcases addQuarter_mem A row q hq with
        ⟨hin, hne⟩ | ⟨q₀, hin, hm, rfl⟩ | ⟨hany, rfl⟩
      · obtain ⟨he, hpg, hmp⟩ := hval q hin
        have hne' : (toQuarter row.month == q.period) = false := by
          rw [beq_eq_false_iff_ne] at hne ⊢
          exact fun hc => hne hc.symm
        refine ⟨?_, ?_, ?_⟩ <;> rw [hfilter, hne'] <;> simp [he, hpg, hmp]
      · obtain ⟨he, hpg, hmp⟩ := hval q₀ hin
        have hm' : (toQuarter row.month == q₀.period) = true := by
          have : q₀.period = toQuarter row.month := by simpa using hm
          simp [this]
        refine ⟨?_, ?_, ?_⟩ <;>
          · show _ = _
            rw [hfilter, hm']
            simp [he, hpg, hmp]
      · have hall : ∀ x ∈ A, ¬ x.period = toQuarter row.month := by simpa using hany
        have hnol : l.any (fun r => toQuarter r.month == toQuarter row.month) = false := by
          rw [Bool.eq_false_iff]
          intro hc
          have := (hmem (toQuarter row.month)).mpr hc
          rw [List.mem_map] at this
          obtain ⟨q₀, hq₀, hqq⟩ := this
          exact hall q₀ hq₀ hqq
        have hnil : l.filter (fun r => toQuarter r.month == toQuarter row.month) = [] := by
          rw [List.filter_eq_nil_iff]
          intro r hr hrq
          have hall' : ∀ x ∈ l, ¬ (toQuarter x.month == toQuarter row.month) = true := by
            simpa using List.any_eq_false.mp hnol
          exact hall' r hr hrq
        refine ⟨?_, ?_, ?_⟩ <;>
          · show _ = _
            rw [hfilter, hnil]
            simp
    · obtain ⟨he, hpg, hmp⟩ := hsum
      unfold addQuarter
      by_cases hp : A.any (fun q => q.period == toQuarter row.month)
      · rw [if_pos hp]
        have hmem' : toQuarter row.month ∈ A.map (fun q => q.period) := by
          rcases List.any_eq_true.mp hp with ⟨q, hq, hqq⟩
          exact List.mem_map.mpr ⟨q, hq, by simpa using hqq⟩
        refine ⟨?_, ?_, ?_⟩
        · rw [sum_map_update A (toQuarter row.month) _ (fun q => q.eon) row.eon
            (fun q => rfl) hnd hmem', he]
          simp
        · rw [sum_map_update A (toQuarter row.month) _ (fun q => q.pgnig) row.pgnig
            (fun q => rfl) hnd hmem', hpg]
          simp
        · rw [sum_map_update A (toQuarter row.month) _ (fun q => q.mpwik) row.mpwik
            (fun q => rfl) hnd hmem', hmp]
          simp
      · rw [if_neg hp]
        refine ⟨?_, ?_, ?_⟩ <;> simp [he, hpg, hmp]

/-- C5: quarter aggregation conserves every provider's total exactly (in the
exact rational model the sums are taken pre-rounding), each output row is the
sum of exactly the input rows whose quarter key matches, and the quarter key
of a well-formed month key is `YYYY-Qceil(month/3)` (with
`ceil(m/3) = (m + 2) / 3` in natural division). -/
theorem C5_quarter_aggregation (rows : List MonthRow) (y m : Nat)
    (hy1 : 1000 ≤ y) (hy2 : y ≤ 9999) (_hm1 : 1 ≤ m) (hm2 : m ≤ 99) :
    ((aggregateToQuarters rows).map (fun q => q.eon)).sum =
        (rows.map (fun r => r.eon)).sum ∧
    ((aggregateToQuarters rows).map (fun q => q.pgnig)).sum =
        (rows.map (fun r => r.pgnig)).sum ∧
    ((aggregateToQuarters rows).map (fun q => q.mpwik)).sum =
        (rows.map (fun r => r.mpwik)).sum ∧
    (∀ q ∈ aggregateToQuarters rows,
      q.eon = ((rows.filter (fun row => toQuarter row.month == q.period)).map
        (fun row => row.eon)).sum ∧
      q.pgnig = ((rows.filter (fun row => toQuarter row.month == q.period)).map
        (fun row => row.pgnig)).sum ∧
      q.mpwik = ((rows.filter (fun row => toQuarter row.month == q.period)).map
        (fun row => row.mpwik)).sum) ∧
    toQuarter (ymKey y m) = Nat.repr y ++ "-Q" ++ Nat.repr ((m + 2) / 3) := by
  obtain ⟨hnd, hmem, hval, hsum⟩ := foldl_addQuarter_spec rows
  have hperm : List.Perm (aggregateToQuarters rows) (rows.foldl addQuarter []) :=
    List.perm_insertionSort _ _
  refine ⟨?_, ?_, ?_, ?_, ?_⟩
  · rw [(hperm.map (fun q => q.eon)).sum_eq]
    exact hsum.1
  · rw [(hperm.map (fun q => q.pgnig)).sum_eq]
    exact hsum.2.1
  · rw [(hperm.map (fun q => q.mpwik)).sum_eq]
    exact hsum.2.2
  · intro q hq
    exact hval q ((List.mem_insertionSort _).mp hq)
  · rw [toQuarter_ymKey y m hy1 hy2 hm2, jsNat_pad2 m hm2]

/-- C5 witness: two rows in Q1 and one in Q2 of 2024, plus the quarter key of
2024-05. -/
theorem C5_quarter_aggregation_witness :
    ((aggregateToQuarters [⟨"2024-01", 1, 2, 3⟩, ⟨"2024-02", 10, 0, 0⟩, ⟨"2024-05", 5, 6, 7⟩]).map
        (fun q => q.eon)).sum =
      ([⟨"2024-01", 1, 2, 3⟩, ⟨"2024-02", 10, 0, 0⟩, ⟨"2024-05", 5, 6, 7⟩].map
        (fun r : MonthRow => r.eon)).sum ∧
    toQuarter (ymKey 2024 5) = Nat.repr 2024 ++ "-Q" ++ Nat.repr ((5 + 2) / 3) := by
  have h := C5_quarter_aggregation
    [⟨"2024-01", 1, 2, 3⟩, ⟨"2024-02", 10, 0, 0⟩, ⟨"2024-05", 5, 6, 7⟩] 2024 5
    (by decide) (by decide) (by decide) (by decide)
  exact ⟨h.1, h.2.2.2.2⟩

/-! ### The display projection and cent-multiples -/

lemma isCent_sum (l : List ℚ) (h : ∀ x ∈ l, IsCent x) : IsCent l.sum := by
  induction l with
  | nil => exact isCent_zero
  | cons x xs ih =>
    rw [List.sum_cons]
    exact isCent_add (h x (by simp)) (ih (fun x' hx' => h x' (by simp [hx'])))

lemma allMonthly_isCent (series : List Series) :
    ∀ r ∈ allMonthly series, IsCent r.eon ∧ IsCent r.pgnig ∧ IsCent r.mpwik := by
  intro r hr
  rw [allMonthly_eq_map, List.mem_map] at hr
  obtain ⟨ym, _, rfl⟩ := hr
  exact ⟨isCent_round2 _, isCent_round2 _, isCent_round2 _⟩

lemma aggregateToQuarters_isCent (rows : List MonthRow)
    (h : ∀ row ∈ rows, IsCent row.eon ∧ IsCent row.pgnig ∧ IsCent row.mpwik) :
    ∀ q ∈ aggregateToQuarters rows, IsCent q.eon ∧ IsCent q.pgnig ∧ IsCent q.mpwik := by
  intro q hq
  have hq' := (List.mem_insertionSort _).mp hq
  obtain ⟨he, hpg, hmp⟩ := (foldl_addQuarter_spec rows).2.2.1 q hq'
  refine ⟨?_, ?_, ?_⟩
  · rw [he]
    apply isCent_sum
    intro x hx
    rw [List.mem_map] at hx
    obtain ⟨row, hrow, rfl⟩ := hx
    exact (h row (List.mem_of_mem_filter hrow)).1
  · rw [hpg]
    apply isCent_sum
    intro x hx
    rw [List.mem_map] at hx
    obtain ⟨row, hrow, rfl⟩ := hx
    exact (h row (List.mem_of_mem_filter hrow)).2.1
  · rw [hmp]
    apply isCent_sum
    intro x hx
    rw [List.mem_map] at hx
    obtain ⟨row, hrow, rfl⟩ := hx
    exact (h row (List.mem_of_mem_filter hrow)).2.2

lemma windowFiltered_sub (allM : List MonthRow) (windowMonths : Nat) (offset : Int) :
    ∀ row ∈ windowFiltered allM windowMonths offset, row ∈ allM := by
  unfold windowFiltered
  rcases (computeWindow allM windowMonths offset).windowStart with _ | ws
  · exact fun row h => h
  · rcases (computeWindow allM windowMonths offset).windowEnd with _ | we
    · exact fun row h => h
    · intro row hrow
      have hrow' : row ∈ (if windowMonths > 0 then
          allM.filter (fun row => strLe ws row.month && strLe row.month we) else allM) := hrow
      by_cases h : windowMonths > 0
      · rw [if_pos h] at hrow'
        exact List.mem_of_mem_filter hrow'
      · rw [if_neg h] at hrow'
        exact hrow'

lemma display_of_cent_rows (chartRows : List QuarterRow)
    (h : ∀ cr ∈ chartRows, IsCent cr.eon ∧ IsCent cr.pgnig ∧ IsCent cr.mpwik) :
    ∀ r ∈ chartRows.map (fun cr => (⟨cr.period, round2 cr.eon, round2 cr.pgnig,
        round2 cr.mpwik, round2 (cr.eon + cr.pgnig + cr.mpwik)⟩ : DisplayRow)),
      r.total = r.eon + r.pgnig + r.mpwik ∧
      round2 r.eon = r.eon ∧ round2 r.pgnig = r.pgnig ∧ round2 r.mpwik = r.mpwik ∧
      round2 r.total = r.total := by
  intro r hr
  rw [List.mem_map] at hr
  obtain ⟨cr, hcr, rfl⟩ := hr
  obtain ⟨he, hpg, hmp⟩ := h cr hcr
  have hsum : IsCent (cr.eon + cr.pgnig + cr.mpwik) := isCent_add (isCent_add he hpg) hmp
  refine ⟨?_, ?_, ?_, ?_, ?_⟩
  · show round2 (cr.eon + cr.pgnig + cr.mpwik) = round2 cr.eon + round2 cr.pgnig + round2 cr.mpwik
    rw [round2_eq_self hsum, round2_eq_self he, round2_eq_self hpg, round2_eq_self hmp]
  · show round2 (round2 cr.eon) = round2 cr.eon
    exact round2_eq_self (isCent_round2 _)
  · show round2 (round2 cr.pgnig) = round2 cr.pgnig
    exact round2_eq_self (isCent_round2 _)
  · show round2 (round2 cr.mpwik) = round2 cr.mpwik
    exact round2_eq_self (isCent_round2 _)
  · show round2 (round2 (cr.eon + cr.pgnig + cr.mpwik)) = round2 (cr.eon + cr.pgnig + cr.mpwik)
    exact round2_eq_self (isCent_round2 _)

/-- C10: every display row satisfies `total = eon + pgnig + mpwik` exactly
(in the exact rational model): all per-provider values reaching the final
projection are already whole numbers of cents, so the final 2-decimal
rounding leaves all four fields unchanged and the independently rounded total
equals the sum of the rounded provider values. -/
theorem C10_display_total_exact (series : List Series) (windowMonths : Nat) (offset : Int)
    (quarterly : Bool) :
    ∀ r ∈ displayData series windowMonths offset quarterly,
      r.total = r.eon + r.pgnig + r.mpwik ∧
      round2 r.eon = r.eon ∧ round2 r.pgnig = r.pgnig ∧ round2 r.mpwik = r.mpwik ∧
      round2 r.total = r.total := by
  intro r hr
  simp only [displayData] at hr
  by_cases hempty : (allMonthly series).isEmpty
  · rw [if_pos hempty] at hr
    cases hr
  · rw [if_neg hempty] at hr
    have hfcent : ∀ row ∈ windowFiltered (allMonthly series) windowMonths offset,
        IsCent row.eon ∧ IsCent row.pgnig ∧ IsCent row.mpwik :=
      fun row hrow => allMonthly_isCent series row
        (windowFiltered_sub (allMonthly series) windowMonths offset row hrow)
    have hcent : ∀ cr ∈ (if quarterly then
        aggregateToQuarters (windowFiltered (allMonthly series) windowMonths offset)
      else (windowFiltered (allMonthly series) windowMonths offset).map
        (fun row => (⟨row.month, row.eon, row.pgnig, row.mpwik⟩ : QuarterRow))),
        IsCent cr.eon ∧ IsCent cr.pgnig ∧ IsCent cr.mpwik := by
      by_cases hq : quarterly
      · rw [if_pos hq]
        exact aggregateToQuarters_isCent _ hfcent
      · rw [if_neg hq]
        intro cr hcr
        rw [List.mem_map] at hcr
        obtain ⟨row, hrow, rfl⟩ := hcr
        exact hfcent row hrow
    exact display_of_cent_rows _ hcent r hr

/-- C10 witness: one single-month record of 300 for e.on; the display row is
`{period: 2024-03, eon: 300, pgnig: 0, mpwik: 0, total: 300}` and satisfies
the exact-total property. -/
theorem C10_display_total_exact_witness :
    (⟨"2024-03", 300, 0, 0, 300⟩ : DisplayRow) ∈
      displayData [⟨"eon", [⟨some ⟨2024, 3⟩, some ⟨2024, 3⟩, some 300, false⟩]⟩] 0 0 false ∧
    ((⟨"2024-03", 300, 0, 0, 300⟩ : DisplayRow).total =
      (⟨"2024-03", 300, 0, 0, 300⟩ : DisplayRow).eon +
      (⟨"2024-03", 300, 0, 0, 300⟩ : DisplayRow).pgnig +
      (⟨"2024-03", 300, 0, 0, 300⟩ : DisplayRow).mpwik ∧
    round2 (⟨"2024-03", 300, 0, 0, 300⟩ : DisplayRow).eon =
      (⟨"2024-03", 300, 0, 0, 300⟩ : DisplayRow).eon ∧
    round2 (⟨"2024-03", 300, 0, 0, 300⟩ : DisplayRow).pgnig =
      (⟨"2024-03", 300, 0, 0, 300⟩ : DisplayRow).pgnig ∧
    round2 (⟨"2024-03", 300, 0, 0, 300⟩ : DisplayRow).mpwik =
      (⟨"2024-03", 300, 0, 0, 300⟩ : DisplayRow).mpwik ∧
    round2 (⟨"2024-03", 300, 0, 0, 300⟩ : DisplayRow).total =
      (⟨"2024-03", 300, 0, 0, 300⟩ : DisplayRow).total) := by
  have h300 : round2 (300 : ℚ) = 300 := round2_eq_self ⟨30000, by norm_num⟩
  have h0 : round2 (0 : ℚ) = 0 := round2_eq_self ⟨0, by norm_num⟩
  have hpm : perMonth ⟨some ⟨2024, 3⟩, some ⟨2024, 3⟩, some 300, false⟩ = 300 := by
    unfold perMonth
    rw [show (recordMonths ⟨some ⟨2024, 3⟩, some ⟨2024, 3⟩, some 300, false⟩).length = 1
      from rfl]
    norm_num [jsCost]
  have hmv_eon : monthValue [⟨"eon", [⟨some ⟨2024, 3⟩, some ⟨2024, 3⟩, some 300, false⟩]⟩]
      "2024-03" "eon" = 300 := by
    have hcv : monthValue [⟨"eon", [⟨some ⟨2024, 3⟩, some ⟨2024, 3⟩, some 300, false⟩]⟩]
        "2024-03" "eon" =
        perMonth ⟨some ⟨2024, 3⟩, some ⟨2024, 3⟩, some 300, false⟩ + 0 := rfl
    rw [hcv, hpm]
    norm_num
  have hmv_pgnig : monthValue [⟨"eon", [⟨some ⟨2024, 3⟩, some ⟨2024, 3⟩, some 300, false⟩]⟩]
      "2024-03" "pgnig" = 0 := rfl
  have hmv_mpwik : monthValue [⟨"eon", [⟨some ⟨2024, 3⟩, some ⟨2024, 3⟩, some 300, false⟩]⟩]
      "2024-03" "mpwik" = 0 := rfl
  have htlr : timelineRow [⟨"eon", [⟨some ⟨2024, 3⟩, some ⟨2024, 3⟩, some 300, false⟩]⟩]
      "2024-03" = ⟨"2024-03", 300, 0, 0⟩ := by
    unfold timelineRow
    rw [hmv_eon, hmv_pgnig, hmv_mpwik, h300, h0]
  have hAM : allMonthly [⟨"eon", [⟨some ⟨2024, 3⟩, some ⟨2024, 3⟩, some 300, false⟩]⟩] =
      [⟨"2024-03", 300, 0, 0⟩] := by
    rw [allMonthly_eq_map,
      show timelineMonths [⟨"eon", [⟨some ⟨2024, 3⟩, some ⟨2024, 3⟩, some 300, false⟩]⟩] =
        ["2024-03"] from by decide,
      List.map_cons, List.map_nil, htlr]
  have hdd : displayData [⟨"eon", [⟨some ⟨2024, 3⟩, some ⟨2024, 3⟩, some 300, false⟩]⟩]
      0 0 false = [⟨"2024-03", 300, 0, 0, 300⟩] := by
    simp only [displayData]
    rw [hAM]
    rw [if_neg (by decide)]
    rw [show windowFiltered [(⟨"2024-03", 300, 0, 0⟩ : MonthRow)] 0 0 =
      [(⟨"2024-03", 300, 0, 0⟩ : MonthRow)] from rfl]
    rw [if_neg (by decide)]
    simp only [List.map_cons, List.map_nil]
    rw [h300, h0, show (300 : ℚ) + 0 + 0 = 300 from by norm_num, h300]
  constructor
  · rw [hdd]
    exact List.mem_singleton.mpr rfl
  · refine C10_display_total_exact [⟨"eon", [⟨some ⟨2024, 3⟩, some ⟨2024, 3⟩, some 300, false⟩]⟩]
      0 0 false ⟨"2024-03", 300, 0, 0, 300⟩ ?_
    rw [hdd]
    exact List.mem_singleton.mpr rfl

end Rachunki
